import Mathlib

/-!
Verification development for the RustArb arbitrage engine.

The Rust sources are shallowly embedded here:
* `pair.rs`   — constant-product pricing on a `Pair` (`get_amount_out`,
  `get_amount_in`, `calculate_weight`);
* `graph.rs`  — the pool multigraph (`create_graph`, `add_pair`), the bounded
  best-output cycle search (`find_shortest_path`, `search_visit`,
  `get_successors`) and path evaluation (`Path.get_amounts_out`);
* `trade.rs`  — `PossibleArbitrage::new`;
* `main.rs`   — `estimate_gas`, `get_profitable_arbitrage`;
* `txpool.rs` — the pending-trade map merge of `TxPool::update_trades`.

Machine integers: `U256` values are `Nat`s together with the explicit checks
the Rust code performs (`checked_*` become `Option`-returning functions with
an explicit `< 2^256` bound, `saturating_*` clamp at `2^256 - 1`); `u128`
reserves are `Nat`s; `u32` fee arithmetic keeps the `checked_sub` that the
code performs.  Panics (`expect`, `panic_any`, indexing) are modelled as
`Except` error results.
-/

deriving instance DecidableEq for Except

namespace RustArb

/-- 20-byte account identity; the zero value is the sentinel used by the
graph's node map. -/
abbrev Address := Nat

/-- One more than the largest `U256` value. -/
def U256_MOD : Nat := 2 ^ 256

/-- Largest `U256` value, `U256::max_value()`. -/
def U256_MAX : Nat := U256_MOD - 1

/-- `U256::checked_mul`: `none` exactly when the product overflows 256 bits. -/
def checkedMul (a b : Nat) : Option Nat :=
  if a * b < U256_MOD then some (a * b) else none

/-- `U256::checked_add`: `none` exactly when the sum overflows 256 bits. -/
def checkedAdd (a b : Nat) : Option Nat :=
  if a + b < U256_MOD then some (a + b) else none

/-- `U256::checked_div`: `none` exactly on a zero divisor. -/
def checkedDiv (a b : Nat) : Option Nat :=
  if b = 0 then none else some (a / b)

/-- `u32::checked_sub`: `none` on underflow. -/
def checkedSub (a b : Nat) : Option Nat :=
  if b ≤ a then some (a - b) else none

/-- `U256::saturating_sub` (on `Nat`, truncated subtraction is saturating). -/
def saturatingSub (a b : Nat) : Nat := a - b

/-- `U256::saturating_add`. -/
def saturatingAdd (a b : Nat) : Nat := min (a + b) U256_MAX

/-- `U256::saturating_mul`. -/
def saturatingMul (a b : Nat) : Nat := min (a * b) U256_MAX

/-- `ArbitrageError` from `pair.rs`. -/
inductive ArbitrageError where
  | NoLiquidity
  | MathOverflow
  | MathUnderflow
  | DivideByZero
  | TokenNotInPair
  deriving DecidableEq, Repr

/-- `OrderedReserves` from `pair.rs`: the reserve on the input side and on the
output side of a swap. -/
structure OrderedReserves where
  input : Nat
  output : Nat
  deriving DecidableEq, Repr

/-- `Pair` from `pair.rs`.  `factory_address` stands for the owning protocol's
factory (the Rust `Pair` reaches it through its `contract`; `graph.rs` reads
it as `edge.factory_address` when building `PairLookup`s). -/
structure Pair where
  factory_address : Address
  token0 : Address
  token1 : Address
  reserve0 : Nat
  reserve1 : Nat
  fee : Nat
  deriving DecidableEq, Repr

/-- `Pair::get_tokens`. -/
def Pair.get_tokens (p : Pair) : Address × Address := (p.token0, p.token1)

/-- `Pair::get_ordered_reserves`: order the stored reserves so that `input`
comes first, or fail with `TokenNotInPair`. -/
def Pair.get_ordered_reserves (p : Pair) (input : Address) :
    Except ArbitrageError OrderedReserves :=
  if input = p.token0 then .ok ⟨p.reserve0, p.reserve1⟩
  else if input = p.token1 then .ok ⟨p.reserve1, p.reserve0⟩
  else .error .TokenNotInPair

/-- `Pair::get_amount_out` from `pair.rs` lines 81-109. -/
def Pair.get_amount_out (p : Pair) (input : Address) (amount_in : Nat) :
    Except ArbitrageError Nat :=
  match p.get_ordered_reserves input with
  | .error e => .error e
  | .ok reserves =>
    if reserves.input = 0 ∨ reserves.output = 0 then .error .NoLiquidity
    else
      match checkedSub 10000 p.fee with
      | none => .error .MathUnderflow
      | some fee_ratio =>
        match checkedMul amount_in fee_ratio with
        | none => .error .MathOverflow
        | some amount_in_with_fee =>
          match checkedMul amount_in_with_fee reserves.output with
          | none => .error .MathOverflow
          | some numerator =>
            match checkedMul reserves.input 10000 with
            | none => .error .MathOverflow
            | some denom_multi =>
              match checkedAdd amount_in_with_fee denom_multi with
              | none => .error .MathUnderflow
              | some denominator =>
                match checkedDiv numerator denominator with
                | none => .error .DivideByZero
                | some output => .ok output

/-- `Pair::get_amount_in` from `pair.rs` lines 111-134.  Note the source uses
`saturating_sub` for `Rout - y`, `unwrap_or_else(U256::max_value)` on the
division and `saturating_add(1)`. -/
def Pair.get_amount_in (p : Pair) (input : Address) (amount_out : Nat) :
    Except ArbitrageError Nat :=
  match p.get_ordered_reserves input with
  | .error e => .error e
  | .ok reserves =>
    if reserves.input = 0 ∨ reserves.output = 0 then .error .NoLiquidity
    else
      match checkedSub 10000 p.fee with
      | none => .error .MathUnderflow
      | some fee_ratio =>
        match checkedMul reserves.input amount_out with
        | none => .error .MathOverflow
        | some partial_num =>
          match checkedMul partial_num 10000 with
          | none => .error .MathOverflow
          | some numerator =>
            let denom_sub := saturatingSub reserves.output amount_out
            match checkedMul denom_sub fee_ratio with
            | none => .error .MathOverflow
            | some denominator =>
              let division := (checkedDiv numerator denominator).getD U256_MAX
              .ok (saturatingAdd division 1)

/-- `Pair::calculate_weight`: `NoLiquidity` is soft (weight 0); every other
error is a `panic_any`, modelled as an `error` result. -/
def Pair.calculate_weight (p : Pair) (input : Address) (amount_in : Nat) :
    Except ArbitrageError Nat :=
  match p.get_amount_out input amount_in with
  | .ok weight => .ok weight
  | .error .NoLiquidity => .ok 0
  | .error e => .error e

/-! ## The pool multigraph (`graph.rs`)

`petgraph::StableGraph` is modelled positionally: node `i` is labelled
`nodeLabels[i]`, edge `j` is `edges[j] = (source, target, pair)`; `add_node`
and `add_edge` append, so indices are allocation order, exactly as petgraph
assigns them. -/

/-- `MAX_NUM_SWAPS` from `graph.rs`. -/
def MAX_NUM_SWAPS : Nat := 4

/-- The `StableGraph<Address, &Pair>` used by `graph.rs`. -/
structure Graph where
  nodeLabels : List Address
  edges : List (Nat × Nat × Pair)
  deriving DecidableEq, Repr

/-- The `HashMap<Address, NodeIndex>` for token → node lookup, as an
association list with first-match lookup. -/
abbrev NodeMap := List (Address × Nat)

/-- `HashMap::get` on the node map. -/
def nmLookup : NodeMap → Address → Option Nat
  | [], _ => none
  | (k, v) :: rest, a => if k = a then some v else nmLookup rest a

/-- `HashMap::insert` on the node map (`add_pair` only inserts keys that are
absent, for which cons-with-first-match-lookup is exact). -/
def nmInsert (m : NodeMap) (a : Address) (i : Nat) : NodeMap := (a, i) :: m

/-- `StableGraph::add_node`: append a node, returning its index. -/
def Graph.addNode (g : Graph) (label : Address) : Graph × Nat :=
  ({ g with nodeLabels := g.nodeLabels ++ [label] }, g.nodeLabels.length)

/-- `StableGraph::add_edge`: append a directed labelled edge. -/
def Graph.addEdge (g : Graph) (src tgt : Nat) (p : Pair) : Graph :=
  { g with edges := g.edges ++ [(src, tgt, p)] }

/-- The `match nodes.get(&token)` blocks of `add_pair`: reuse the node for a
known token, otherwise add a node and record it. -/
def ensureNode (g : Graph) (nodes : NodeMap) (token : Address) : Graph × Nat × NodeMap :=
  match nmLookup nodes token with
  | some node => (g, node, nodes)
  | none =>
    let st := g.addNode token
    (st.1, st.2, nmInsert nodes token st.2)

/-- `add_pair` from `graph.rs` lines 133-176: ensure nodes for both tokens,
add the start edge when one side is the traded token, then both directed
edges between the tokens. -/
def addPair (g : Graph) (p : Pair) (nodes : NodeMap) (start_token : Address) :
    Except String (Graph × NodeMap) :=
  let st0 := ensureNode g nodes p.token0
  let g0 := st0.1
  let node0 := st0.2.1
  let nodes0 := st0.2.2
  let st1 := ensureNode g0 nodes0 p.token1
  let g1 := st1.1
  let node1 := st1.2.1
  let nodes1 := st1.2.2
  if p.token0 = start_token then
    match nmLookup nodes1 0 with
    | none => .error "Missing Target Node"
    | some start_node =>
      .ok ((((g1.addEdge start_node node1 p).addEdge node0 node1 p).addEdge node1 node0 p),
        nodes1)
  else if p.token1 = start_token then
    match nmLookup nodes1 0 with
    | none => .error "Missing Target Node"
    | some start_node =>
      .ok ((((g1.addEdge start_node node0 p).addEdge node0 node1 p).addEdge node1 node0 p),
        nodes1)
  else
    .ok (((g1.addEdge node0 node1 p).addEdge node1 node0 p), nodes1)

/-- The `for pair in allpairs` loop of `create_graph`. -/
def createGraphLoop (traded_token : Address) :
    List Pair → Graph → NodeMap → Except String (Graph × NodeMap)
  | [], g, nodes => .ok (g, nodes)
  | p :: rest, g, nodes =>
    match addPair g p nodes traded_token with
    | .error e => .error e
    | .ok (g', nodes') => createGraphLoop traded_token rest g' nodes'

/-- `create_graph` from `graph.rs` lines 178-192: the start node is created
first (labelled with the traded token) and registered in the node map under
the zero address. -/
def createGraph (allpairs : List Pair) (nodes : NodeMap) (traded_token : Address) :
    Except String (Graph × NodeMap) :=
  let st := Graph.addNode { nodeLabels := [], edges := [] } traded_token
  let nodes0 := nmInsert nodes 0 st.2
  createGraphLoop traded_token allpairs st.1 nodes0

/-- Edges with their indices, in insertion order (edge `i + k` is `l[k]`). -/
def enumEdges : Nat → List (Nat × Nat × Pair) → List (Nat × Nat × Nat × Pair)
  | _, [] => []
  | i, e :: es => (i, e) :: enumEdges (i + 1) es

/-- The weight computation of `get_successors`: one `(edge id, target,
weight)` triple per outgoing edge, aborting on a `calculate_weight` panic. -/
def succOf (node_token : Address) (cur_weight : Nat) :
    List (Nat × Nat × Nat × Pair) → Except ArbitrageError (List (Nat × Nat × Nat))
  | [] => .ok []
  | (idx, _, tgt, p) :: rest =>
    match p.calculate_weight node_token cur_weight with
    | .error e => .error e
    | .ok weight =>
      match succOf node_token cur_weight rest with
      | .error e => .error e
      | .ok l => .ok ((idx, tgt, weight) :: l)

/-- `get_successors` from `graph.rs` lines 264-282. -/
def getSuccessors (g : Graph) (node : Nat) (cur_weight : Nat) :
    Except ArbitrageError (List (Nat × Nat × Nat)) :=
  let node_token := g.nodeLabels.getD node 0
  succOf node_token cur_weight ((enumEdges 0 g.edges).filter (fun e => e.2.1 == node))

/-- `SearchPath` from `graph.rs`. -/
structure SearchPath where
  token_order : List Nat
  pair_order : List Nat
  weight : Nat
  deriving DecidableEq, Repr

/-- The `seen_nodes: HashMap<(NodeIndex, usize), U256>` memo map. -/
abbrev Memo := List ((Nat × Nat) × Nat)

/-- Memo lookup (first match). -/
def memoLookup : Memo → Nat × Nat → Option Nat
  | [], _ => none
  | (k, v) :: rest, key => if k = key then some v else memoLookup rest key

/-- Memo insert/overwrite. -/
def memoInsert (m : Memo) (key : Nat × Nat) (v : Nat) : Memo :=
  (key, v) :: m.filter (fun e => e.1 ≠ key)

/-- The `seen_nodes.entry(...)` match of `search_visit` (graph.rs lines
238-249): `none` means the branch is pruned (occupied entry strictly above
the current weight); otherwise the current weight is stored and the search
continues with the returned map. -/
def memoStep (seen : Memo) (key : Nat × Nat) (cur_weight : Nat) : Option Memo :=
  match memoLookup seen key with
  | some occupied =>
    if occupied > cur_weight then none else some (memoInsert seen key cur_weight)
  | none => some (memoInsert seen key cur_weight)

/-- The `for (edge, node, weight) in get_successors(...)` loop of
`search_visit`: skip already-used edges, otherwise recurse (`visit` is the
recursive `search_visit` call at the next depth) on the extended path. -/
def searchLoop (g : Graph)
    (visit : SearchPath → Memo → SearchPath → Except ArbitrageError (Memo × SearchPath))
    (cur_path : SearchPath) :
    List (Nat × Nat × Nat) → Memo → SearchPath → Except ArbitrageError (Memo × SearchPath)
  | [], seen, best => .ok (seen, best)
  | (edge, node, weight) :: rest, seen, best =>
    if cur_path.pair_order.contains edge then
      searchLoop g visit cur_path rest seen best
    else
      match visit
          { token_order := cur_path.token_order ++ [node],
            pair_order := cur_path.pair_order ++ [edge],
            weight := weight } seen best with
      | .error e => .error e
      | .ok (seen', best') => searchLoop g visit cur_path rest seen' best'

/-- `search_visit` from `graph.rs` lines 216-262, with the `&mut` memo and
best path threaded as state.  The recursion depth is bounded by the
`MAX_NUM_SWAPS` guard (each nested call has one more edge, and the guard
returns as soon as more than `MAX_NUM_SWAPS` edges are present), so `fuel ≥
MAX_NUM_SWAPS + 2` makes the fuel-out branch unreachable from
`find_shortest_path`. -/
def searchVisit (g : Graph) (target_node : Nat) :
    Nat → SearchPath → Memo → SearchPath → Except ArbitrageError (Memo × SearchPath)
  | 0, _, seen_nodes, best => .ok (seen_nodes, best)
  | fuel + 1, cur_path, seen_nodes, best =>
    if cur_path.pair_order.length > MAX_NUM_SWAPS then .ok (seen_nodes, best)
    else
      let cur_node := cur_path.token_order.getLastD 0
      let cur_weight := cur_path.weight
      if cur_node = target_node then
        if cur_weight > best.weight then .ok (seen_nodes, cur_path)
        else .ok (seen_nodes, best)
      else
        match memoStep seen_nodes (cur_node, cur_path.pair_order.length) cur_weight with
        | none => .ok (seen_nodes, best)
        | some seen1 =>
          match getSuccessors g cur_node cur_weight with
          | .error e => .error e
          | .ok succs =>
            searchLoop g (fun c s b => searchVisit g target_node fuel c s b)
              cur_path succs seen1 best

/-- `PairLookup` from `graph.rs`: a value-typed reference to a pair,
resolved against the protocol registry. -/
structure PairLookup where
  factory_address : Address
  pair_addresses : Address × Address
  deriving DecidableEq, Repr

/-- `Path` from `graph.rs`. -/
structure Path where
  token_order : List Address
  pair_order : List PairLookup
  deriving DecidableEq, Repr

/-- How a search abort surfaces from `find_shortest_path`: an `anyhow` error
or a propagated `panic_any` from `calculate_weight`. -/
inductive SearchAbort where
  | failure : String → SearchAbort
  | panicked : ArbitrageError → SearchAbort
  deriving DecidableEq, Repr

/-- The node-index → label mapping of `Path::from_search_path`. -/
def mapNodes (g : Graph) : List Nat → Except String (List Address)
  | [] => .ok []
  | n :: rest =>
    match g.nodeLabels.get? n with
    | none => .error "Missing node"
    | some address =>
      match mapNodes g rest with
      | .error e => .error e
      | .ok l => .ok (address :: l)

/-- The edge-index → `PairLookup` mapping of `Path::from_search_path`. -/
def mapEdges (g : Graph) : List Nat → Except String (List PairLookup)
  | [] => .ok []
  | e :: rest =>
    match g.edges.get? e with
    | none => .error "Missing edge"
    | some edge =>
      match mapEdges g rest with
      | .error err => .error err
      | .ok l => .ok (⟨edge.2.2.factory_address, edge.2.2.get_tokens⟩ :: l)

/-- `Path::from_search_path` from `graph.rs` lines 57-83. -/
def Path.from_search_path (g : Graph) (searched : SearchPath) : Except String Path :=
  match mapNodes g searched.token_order with
  | .error e => .error e
  | .ok token_order =>
    match mapEdges g searched.pair_order with
    | .error e => .error e
    | .ok pair_order => .ok { token_order := token_order, pair_order := pair_order }

/-- Fuel that makes the fuel-out branch of `searchVisit` unreachable: the
depth guard stops every branch after at most `MAX_NUM_SWAPS + 2` nested
calls. -/
def SEARCH_FUEL : Nat := MAX_NUM_SWAPS + 2

/-- The search proper of `find_shortest_path` (graph.rs lines 194-213): the
best `SearchPath` found, before conversion to a `Path`. -/
def findBestSearchPath (g : Graph) (nodes : NodeMap) (target : Address)
    (amount_in : Nat) : Except SearchAbort SearchPath :=
  match nmLookup nodes target with
  | none => .error (.failure "Missing target node")
  | some goal =>
    match nmLookup nodes 0 with
    | none => .error (.failure "Missing start node")
    | some start_index =>
      match searchVisit g goal SEARCH_FUEL
          { token_order := [start_index], pair_order := [], weight := amount_in }
          [] { token_order := [], pair_order := [], weight := 0 } with
      | .error e => .error (.panicked e)
      | .ok (_, best) => .ok best

/-- `find_shortest_path` from `graph.rs` lines 194-214. -/
def find_shortest_path (g : Graph) (nodes : NodeMap) (target : Address)
    (amount_in : Nat) : Except SearchAbort Path :=
  match findBestSearchPath g nodes target amount_in with
  | .error e => .error e
  | .ok best =>
    match Path.from_search_path g best with
    | .error e => .error (.failure e)
    | .ok path => .ok path

/-! ## Path evaluation (`Path::get_amounts_out`) -/

/-- The protocol registry as seen by `get_amounts_out`: factory address →
(`(token0, token1)` → pair). -/
abbrev Protocols := List (Address × List ((Address × Address) × Pair))

/-- `protocols.get(&factory_address)`. -/
def protocolsLookup : Protocols → Address → Option (List ((Address × Address) × Pair))
  | [], _ => none
  | (k, v) :: rest, a => if k = a then some v else protocolsLookup rest a

/-- `protocol.pairs.get(&pair_addresses)`. -/
def pairsLookup : List ((Address × Address) × Pair) → Address × Address → Option Pair
  | [], _ => none
  | (k, v) :: rest, key => if k = key then some v else pairsLookup rest key

/-- The `Display` strings of `ArbitrageError` (used when the error crosses
into `anyhow::Result`). -/
def arbErrString : ArbitrageError → String
  | .NoLiquidity => "No Liquidity"
  | .MathOverflow => "Math Overflow"
  | .MathUnderflow => "Math Underflow"
  | .DivideByZero => "Divide by zero"
  | .TokenNotInPair => "Token not in pair"

/-- The `zip(&token_order, &pair_order)` loop of `Path::get_amounts_out`,
accumulating the running amounts (the zip stops at the shorter list). -/
def amountsOutGo (protocols : Protocols) :
    List Address → List PairLookup → Nat → Except String (List Nat)
  | _, [], current_amount => .ok [current_amount]
  | [], _ :: _, current_amount => .ok [current_amount]
  | input :: inputs, pair_key :: pair_keys, current_amount =>
    match protocolsLookup protocols pair_key.factory_address with
    | none => .error "Protocol not found"
    | some pairs =>
      match pairsLookup pairs pair_key.pair_addresses with
      | none => .error "Pair not found in protocol"
      | some pair =>
        match pair.get_amount_out input current_amount with
        | .error e => .error (arbErrString e)
        | .ok next =>
          match amountsOutGo protocols inputs pair_keys next with
          | .error e => .error e
          | .ok l => .ok (current_amount :: l)

/-- `Path::get_amounts_out` from `graph.rs` lines 85-106. -/
def Path.get_amounts_out (path : Path) (input : Nat) (protocols : Protocols) :
    Except String (List Nat) :=
  amountsOutGo protocols path.token_order path.pair_order input

/-! ## Opportunity scoring (`trade.rs`, `main.rs`) -/

/-- `Gas` from `trade.rs`. -/
inductive Gas where
  | Legacy : Nat → Gas
  | London : Nat → Nat → Gas
  deriving DecidableEq, Repr

/-- `GAS_ESTIMATE` from `main.rs`. -/
def GAS_ESTIMATE : Nat := 500000

/-- `estimate_gas` from `main.rs` lines 158-167; `transaction_attempts` is
the `TX_ATTEMPTS` environment value. -/
def estimate_gas (gas : Gas) (transaction_attempts : Nat) : Nat :=
  let gas_price :=
    match gas with
    | .Legacy price => price
    | .London max_fee _ => max_fee
  let gas_for_success := saturatingMul GAS_ESTIMATE gas_price
  let gas_for_fail := saturatingMul (GAS_ESTIMATE / 8) gas_price
  saturatingAdd gas_for_success (saturatingMul gas_for_fail (transaction_attempts - 1))

/-- `PossibleArbitrage` from `trade.rs`. -/
structure PossibleArbitrage where
  path : Path
  gas : Gas
  input : Nat
  output : Nat
  profit : Nat
  gas_in_eth : Nat
  deriving DecidableEq, Repr

/-- `PossibleArbitrage::new` from `trade.rs` lines 36-48:
`profit = output.saturating_sub(input)`, `gas_in_eth = estimate_gas(gas)`. -/
def PossibleArbitrage.new (path : Path) (gas : Gas) (output input : Nat)
    (transaction_attempts : Nat) : PossibleArbitrage :=
  { path := path, gas := gas, input := input, output := output,
    profit := saturatingSub output input,
    gas_in_eth := estimate_gas gas transaction_attempts }

/-- `Iterator::max_by_key`: maximum by key, the last of equal maxima. -/
def maxByKey {α : Type} (key : α → Nat) (l : List α) : Option α :=
  l.foldl
    (fun acc x =>
      match acc with
      | none => some x
      | some m => if key x ≥ key m then some x else some m)
    none

/-- The decision of `get_profitable_arbitrage` (main.rs lines 169-188) on a
candidate list (the list `tx_pool.get_arbitrages` produced; every element of
that list is built with `PossibleArbitrage::new`, txpool.rs line 285). -/
def get_profitable_arbitrage (arbitrages : List PossibleArbitrage) :
    Option PossibleArbitrage :=
  match maxByKey (fun a => saturatingSub a.profit a.gas_in_eth) arbitrages with
  | none => none
  | some arbitrage =>
    if saturatingSub arbitrage.profit arbitrage.gas_in_eth > 0 then some arbitrage
    else none

/-! ## Pending-trade storage (`txpool.rs`, `trade.rs`) -/

/-- `SwapExact` from `trade.rs` (`toAddr` is the Rust field `to`). -/
structure SwapExact where
  amount_in : Nat
  amount_out_min : Nat
  path : List Address
  toAddr : Address
  deadline : Nat
  deriving DecidableEq, Repr

/-- `SwapForExact` from `trade.rs` (`toAddr` is the Rust field `to`). -/
structure SwapForExact where
  amount_out : Nat
  amount_in_max : Nat
  path : List Address
  toAddr : Address
  deadline : Nat
  deriving DecidableEq, Repr

/-- `TradeParams` from `trade.rs`. -/
inductive TradeParams where
  | ExactInput : SwapExact → TradeParams
  | ExactOutput : SwapForExact → TradeParams
  deriving DecidableEq, Repr

/-- `Trade` from `trade.rs` (`tx_hash` is the `H256` as a number; `toAddr`
and `fromAddress` are the Rust fields `to` and `from`, Lean keywords). -/
structure Trade where
  tx_hash : Nat
  toAddr : Address
  fromAddress : Address
  params : TradeParams
  gas : Gas
  path : Path
  protocol : Address
  simulated : Bool
  deriving DecidableEq, Repr

/-- The `trades: FxHashMap<Address, Trade>` field of `TxPool`, keyed by
protocol factory address. -/
abbrev TradeMap := List (Address × Trade)

/-- `FxHashMap::insert` (overwrite semantics). -/
def tradeMapInsert (m : TradeMap) (k : Address) (t : Trade) : TradeMap :=
  (k, t) :: m.filter (fun e => e.1 ≠ k)

/-- The merge loop of `TxPool::update_trades` (txpool.rs lines 220-222):
`for trade in new_trades { self.trades.insert(trade.protocol, trade); }`. -/
def update_trades_merge (trades : TradeMap) (new_trades : List Trade) : TradeMap :=
  new_trades.foldl (fun m trade => tradeMapInsert m trade.protocol trade) trades

/-- The registry resolves each listed pair's own `PairLookup` key back to
that pair (at most one pair per `(factory, {token0, token1})`, the standing
assumption of `graph.rs`/`main.rs` lookups). -/
def Resolves (protocols : Protocols) (allpairs : List Pair) : Prop :=
  ∀ p ∈ allpairs,
    (protocolsLookup protocols p.factory_address).bind
      (fun pairs => pairsLookup pairs (p.token0, p.token1)) = some p

/-! ## Concrete scenario data

Spec §8 scenario 1: a single pool between the reserve token `R` (address 1)
and token `A` (address 2) with reserves 1000/1000 and fee 30, owned by the
factory at address 9. -/

/-- The `R/A (1000, 1000, 30)` pool. -/
def pRA : Pair := ⟨9, 1, 2, 1000, 1000, 30⟩

/-- Registry holding exactly `pRA`. -/
def protocolsRA : Protocols := [(9, [((1, 2), pRA)])]

/-- The graph `create_graph [pRA]` builds (start node 0 labelled `R`, then
nodes for `R` and `A`, start edge and both directions of the pool). -/
def gRA : Graph := ⟨[1, 1, 2], [(0, 2, pRA), (1, 2, pRA), (2, 1, pRA)]⟩

/-- The node map `create_graph [pRA]` builds. -/
def nsRA : NodeMap := [(2, 2), (1, 1), (0, 0)]

/-- The two-swap cycle `R → A → R` through `pRA`, as returned by the search
on the scenario-1 graph. -/
def pathRA : Path := ⟨[1, 2, 1], [⟨9, (1, 2)⟩, ⟨9, (1, 2)⟩]⟩

/-- The best `SearchPath` the scenario-1 search finds for input 100. -/
def bestRA : SearchPath := ⟨[0, 2, 1], [0, 2], 82⟩

/-- A pool between the same tokens with both reserves zero (every weight
through it is 0, so the search finds no positive-weight cycle). -/
def pDry : Pair := ⟨9, 1, 2, 0, 0, 30⟩

/-- Registry holding exactly `pDry`. -/
def protocolsDry : Protocols := [(9, [((1, 2), pDry)])]

/-- A pool whose `token0` is the zero address, colliding with the node map's
sentinel key. -/
def pZeroTok : Pair := ⟨9, 0, 5, 1, 1, 0⟩

/-- A fee-0 pool `R/A (1000, 1000, 0)` (used against the round-trip law). -/
def pFee0 : Pair := ⟨9, 1, 2, 1000, 1000, 0⟩

/-- A decoded pending swap to protocol 7 with transaction hash 100. -/
def tradeA : Trade :=
  { tx_hash := 100, toAddr := 3, fromAddress := 4,
    params := .ExactInput ⟨1, 0, [], 0, 99⟩, gas := .Legacy 5,
    path := ⟨[], []⟩, protocol := 7, simulated := false }

/-- A second decoded pending swap to the same protocol 7, hash 200. -/
def tradeB : Trade := { tradeA with tx_hash := 200 }

/-- Candidate opportunity used to exercise `get_profitable_arbitrage`:
output 5 against input 1 at zero gas price. -/
def arbSample : PossibleArbitrage := PossibleArbitrage.new pathRA (.Legacy 0) 5 1 1

/-- Registry holding exactly `pDry` (zero-reserve scenario). -/
def gDry : Graph := ⟨[1, 1, 2], [(0, 2, pDry), (1, 2, pDry), (2, 1, pDry)]⟩

/-- The node map `create_graph [pDry]` builds. -/
def nsDry : NodeMap := [(2, 2), (1, 1), (0, 0)]

/-- The graph `create_graph [pZeroTok]` builds for traded token 7: the
zero-address token collides with the sentinel key, so the pair's `token0`
node is the start node (labelled 7). -/
def gZT : Graph := ⟨[7, 5], [(0, 1, pZeroTok), (1, 0, pZeroTok)]⟩

/-- The node map `create_graph [pZeroTok]` builds. -/
def nsZT : NodeMap := [(5, 1), (0, 0)]

/-! ## Specification predicates used by the verification -/

/-- Invariant of the graph and node map maintained by `create_graph` (for an
initially empty node map): node 0 is the start node, keyed by the zero
address and labelled with the traded token; every other key labels its own
node; edges stay in range, carry pairs from the input list, and (for pairs
free of the zero address) depart from a node labelled with one of their
tokens. -/
structure GraphInv (allpairs : List Pair) (traded : Address) (g : Graph)
    (ns : NodeMap) : Prop where
  start_lookup : nmLookup ns 0 = some 0
  start_label : g.nodeLabels.get? 0 = some traded
  lookup_label : ∀ a i, a ≠ 0 → nmLookup ns a = some i → g.nodeLabels.get? i = some a
  lookup_lt : ∀ a i, nmLookup ns a = some i → i < g.nodeLabels.length
  edge_ok : ∀ e ∈ g.edges, e.1 < g.nodeLabels.length ∧ e.2.1 < g.nodeLabels.length ∧
    e.2.2 ∈ allpairs
  edge_label : ∀ e ∈ g.edges, e.2.2.token0 ≠ 0 → e.2.2.token1 ≠ 0 →
    g.nodeLabels.getD e.1 0 = e.2.2.token0 ∨ g.nodeLabels.getD e.1 0 = e.2.2.token1

/-- A walk through the graph carrying the running `calculate_weight` chain:
from node `n` with running amount `w`, following `ms`/`es` (visited nodes and
edge indices) ends at node `nfin` with amount `wfin`, every leg's weight
having been computed successfully. -/
inductive WalkChain (g : Graph) : Nat → Nat → List Nat → List Nat → Nat → Nat → Prop where
  | nil (n w : Nat) : WalkChain g n w [] [] n w
  | cons (n w m : Nat) (ms : List Nat) (e : Nat) (es : List Nat) (p : Pair)
      (w' nfin wfin : Nat) :
      g.edges.get? e = some (n, m, p) →
      p.calculate_weight (g.nodeLabels.getD n 0) w = .ok w' →
      WalkChain g m w' ms es nfin wfin →
      WalkChain g n w (m :: ms) (e :: es) nfin wfin

/-- A live `search_visit` state: a walk from the start node `s0` with the
initial amount `a0`, using pairwise-distinct edges. -/
def GoodState (g : Graph) (s0 a0 : Nat) (cur : SearchPath) : Prop :=
  ∃ rest nfin, cur.token_order = s0 :: rest ∧
    WalkChain g s0 a0 rest cur.pair_order nfin cur.weight ∧ cur.pair_order.Nodup

/-- The best-path accumulator: still the empty sentinel, or a
distinct-edge walk of at most `MAX_NUM_SWAPS` edges from the start node to
the goal with positive final weight. -/
def GoodBest (g : Graph) (s0 a0 goal : Nat) (best : SearchPath) : Prop :=
  best = { token_order := [], pair_order := [], weight := 0 } ∨
  ∃ rest, best.token_order = s0 :: rest ∧
    WalkChain g s0 a0 rest best.pair_order goal best.weight ∧
    best.pair_order.Nodup ∧ best.pair_order.length ≤ MAX_NUM_SWAPS ∧ 0 < best.weight

/-- What `get_successors` promises for each produced triple: an edge with
that id leaving the state's current node, and a successfully computed
weight from the current amount. -/
def SuccProp (g : Graph) (cur : SearchPath) (t : Nat × Nat × Nat) : Prop :=
  ∃ p, g.edges.get? t.1 = some (cur.token_order.getLastD 0, t.2.1, p) ∧
    p.calculate_weight (g.nodeLabels.getD (cur.token_order.getLastD 0) 0) cur.weight =
      .ok t.2.2

/-! ## Pricing lemmas -/

/-- Splitting a checked-arithmetic success: the guard held and the value is
the unchecked result. -/
theorem if_some_eq {c : Prop} [Decidable c] {v out : Nat}
    (h : (if c then some v else none) = some out) : c ∧ out = v := by
  split_ifs at h with hc
  exact ⟨hc, ((Option.some.injEq _ _).mp h).symm⟩

/-- What a successful `get_amount_out` guarantees: liquid ordered reserves,
a fee of at most 10000, all checked steps in range, and the UniswapV2
exact-in quote as the value. -/
theorem get_amount_out_ok (p : Pair) (tok : Address) (x y : Nat)
    (hok : p.get_amount_out tok x = .ok y) :
    ∃ res, p.get_ordered_reserves tok = .ok res ∧ 0 < res.input ∧ 0 < res.output ∧
      p.fee ≤ 10000 ∧ x * (10000 - p.fee) < U256_MOD ∧
      x * (10000 - p.fee) * res.output < U256_MOD ∧ res.input * 10000 < U256_MOD ∧
      x * (10000 - p.fee) + res.input * 10000 < U256_MOD ∧
      y = x * (10000 - p.fee) * res.output / (x * (10000 - p.fee) + res.input * 10000) := by
  unfold Pair.get_amount_out at hok
  cases hres : p.get_ordered_reserves tok with
  | error e => rw [hres] at hok; exact absurd hok (by simp)
  | ok res =>
    rw [hres] at hok
    refine ⟨res, rfl, ?_⟩
    simp only [checkedSub, checkedMul, checkedAdd, checkedDiv] at hok
    repeat' split at hok
    all_goals try exact Except.noConfusion hok
    rename_i h0 a5 o5 h5 a4 o4 h4 a3 o3 h3 a2 o2 h2 a1 o1 h1 a0 o0 hdiv
    obtain ⟨hf, rfl⟩ := if_some_eq h5
    obtain ⟨hb1, rfl⟩ := if_some_eq h4
    obtain ⟨hb2, rfl⟩ := if_some_eq h3
    obtain ⟨hb3, rfl⟩ := if_some_eq h2
    obtain ⟨hb4, rfl⟩ := if_some_eq h1
    by_cases hz : x * (10000 - p.fee) + res.input * 10000 = 0
    · rw [if_pos hz] at hdiv; cases hdiv
    · rw [if_neg hz] at hdiv
      obtain rfl := ((Option.some.injEq _ _).mp hdiv).symm
      have hy := (Except.ok.injEq _ _).mp hok
      exact ⟨by omega, by omega, hf, hb1, hb2, hb3, hb4, hy.symm⟩

/-- What a successful `get_amount_in` guarantees: liquid ordered reserves,
a fee of at most 10000, checked steps in range, and the value
`floor(Rin·y·10000 / ((Rout − y)·(10000 − fee))) + 1`, where a zero
denominator saturates the division to `U256_MAX`. -/
theorem get_amount_in_ok (p : Pair) (tok : Address) (y z : Nat)
    (hok : p.get_amount_in tok y = .ok z) :
    ∃ res, p.get_ordered_reserves tok = .ok res ∧ 0 < res.input ∧ 0 < res.output ∧
      p.fee ≤ 10000 ∧ res.input * y < U256_MOD ∧ res.input * y * 10000 < U256_MOD ∧
      (res.output - y) * (10000 - p.fee) < U256_MOD ∧
      z = saturatingAdd
        ((checkedDiv (res.input * y * 10000) ((res.output - y) * (10000 - p.fee))).getD
          U256_MAX) 1 := by
  unfold Pair.get_amount_in at hok
  cases hres : p.get_ordered_reserves tok with
  | error e => rw [hres] at hok; exact absurd hok (by simp)
  | ok res =>
    rw [hres] at hok
    refine ⟨res, rfl, ?_⟩
    simp only [checkedSub, checkedMul, checkedAdd, saturatingSub] at hok
    repeat' split at hok
    all_goals try exact Except.noConfusion hok
    rename_i h0 a5 o5 h5 a4 o4 h4 a3 o3 h3 a2 o2 h2
    obtain ⟨hf, rfl⟩ := if_some_eq h5
    obtain ⟨hb1, rfl⟩ := if_some_eq h4
    obtain ⟨hb2, rfl⟩ := if_some_eq h3
    obtain ⟨hb3, rfl⟩ := if_some_eq h2
    have hz := (Except.ok.injEq _ _).mp hok
    exact ⟨by omega, by omega, hf, hb1, hb2, hb3, hz.symm⟩

/-- An exact-in quote is strictly below the output-side reserve. -/
theorem amount_out_lt_output (p : Pair) (tok : Address) (x y : Nat)
    (res : OrderedReserves) (hres : p.get_ordered_reserves tok = .ok res)
    (hok : p.get_amount_out tok x = .ok y) : y < res.output := by
  obtain ⟨res', hres', hin, hout, hfee, hb1, hb2, hb3, hb4, hy⟩ :=
    get_amount_out_ok p tok x y hok
  rw [hres] at hres'
  obtain rfl : res = res' := (Except.ok.injEq _ _).mp hres'
  subst hy
  have hD : 0 < x * (10000 - p.fee) + res.input * 10000 := by
    have : 0 < res.input * 10000 := Nat.mul_pos hin (by norm_num)
    omega
  rw [Nat.div_lt_iff_lt_mul hD]
  have h1 : 0 < res.output * (res.input * 10000) :=
    Nat.mul_pos hout (Nat.mul_pos hin (by norm_num))
  calc x * (10000 - p.fee) * res.output
      = res.output * (x * (10000 - p.fee)) := by ring
    _ < res.output * (x * (10000 - p.fee)) + res.output * (res.input * 10000) := by omega
    _ = res.output * (x * (10000 - p.fee) + res.input * 10000) := by ring

/-- An exact-in quote for a zero input is zero. -/
theorem amount_out_zero (p : Pair) (tok : Address) (y : Nat)
    (hok : p.get_amount_out tok 0 = .ok y) : y = 0 := by
  obtain ⟨res, -, -, -, -, -, -, -, -, hy⟩ := get_amount_out_ok p tok 0 y hok
  simpa using hy

/-- A successful `calculate_weight` is a successful quote or a soft
`NoLiquidity` turned into weight 0. -/
theorem calculate_weight_ok_cases (p : Pair) (tok : Address) (x w : Nat)
    (h : p.calculate_weight tok x = .ok w) :
    p.get_amount_out tok x = .ok w ∨
      (p.get_amount_out tok x = .error .NoLiquidity ∧ w = 0) := by
  unfold Pair.calculate_weight at h
  split at h
  · left
    rename_i heq
    rw [heq]
    exact congrArg _ ((Except.ok.injEq _ _).mp h)
  · right
    rename_i heq
    exact ⟨heq, ((Except.ok.injEq _ _).mp h).symm⟩
  · cases h

/-- A zero running amount keeps weighting to zero. -/
theorem calculate_weight_zero (p : Pair) (tok : Address) (w : Nat)
    (h : p.calculate_weight tok 0 = .ok w) : w = 0 := by
  rcases calculate_weight_ok_cases p tok 0 w h with hok | ⟨-, hw⟩
  · exact amount_out_zero p tok w hok
  · exact hw

/-- `get_amount_out` only reports `TokenNotInPair` for tokens outside the
pair. -/
theorem get_amount_out_tnip (p : Pair) (tok : Address) (x : Nat)
    (herr : p.get_amount_out tok x = .error .TokenNotInPair) :
    ¬(tok = p.token0 ∨ tok = p.token1) := by
  intro hin
  unfold Pair.get_amount_out at herr
  cases hres : p.get_ordered_reserves tok with
  | error e =>
    unfold Pair.get_ordered_reserves at hres
    rcases hin with h | h
    · simp [h] at hres
    · rw [if_neg] at hres
      · simp [h] at hres
      · intro h0
        simp [h0] at hres
  | ok res =>
    rw [hres] at herr
    simp only [checkedSub, checkedMul, checkedAdd, checkedDiv] at herr
    repeat' split at herr
    all_goals simp at herr

/-- `calculate_weight` only panics with `TokenNotInPair` for tokens outside
the pair. -/
theorem calculate_weight_tnip (p : Pair) (tok : Address) (x : Nat)
    (herr : p.calculate_weight tok x = .error .TokenNotInPair) :
    ¬(tok = p.token0 ∨ tok = p.token1) := by
  unfold Pair.calculate_weight at herr
  split at herr
  · cases herr
  · cases herr
  · rename_i heq
    cases herr
    exact get_amount_out_tnip p tok x heq

/-! ## Graph construction invariants -/

/-- Lookup after insert. -/
theorem nmLookup_insert (m : NodeMap) (a b : Address) (i : Nat) :
    nmLookup (nmInsert m a i) b = if a = b then some i else nmLookup m b := by
  simp [nmInsert, nmLookup]

/-- What `ensureNode` produces, given the invariant. -/
theorem ensureNode_spec (allpairs : List Pair) (traded : Address) (g : Graph)
    (ns : NodeMap) (tok : Address) (hinv : GraphInv allpairs traded g ns) :
    GraphInv allpairs traded (ensureNode g ns tok).1 (ensureNode g ns tok).2.2 ∧
    nmLookup (ensureNode g ns tok).2.2 tok = some (ensureNode g ns tok).2.1 ∧
    (ensureNode g ns tok).2.1 < (ensureNode g ns tok).1.nodeLabels.length ∧
    (ensureNode g ns tok).1.nodeLabels.get? (ensureNode g ns tok).2.1 =
      some (if tok = 0 then traded else tok) ∧
    (ensureNode g ns tok).1.edges = g.edges ∧
    (∀ a j, nmLookup ns a = some j → nmLookup (ensureNode g ns tok).2.2 a = some j) ∧
    (∀ j, j < g.nodeLabels.length →
      (ensureNode g ns tok).1.nodeLabels.get? j = g.nodeLabels.get? j) ∧
    g.nodeLabels.length ≤ (ensureNode g ns tok).1.nodeLabels.length := by
  cases hl : nmLookup ns tok with
  | some node =>
    have hE : ensureNode g ns tok = (g, node, ns) := by
      unfold ensureNode
      rw [hl]
    rw [hE]
    refine ⟨hinv, hl, hinv.lookup_lt tok node hl, ?_, rfl, fun a j h => h,
      fun j _ => rfl, le_refl _⟩
    by_cases h0 : tok = 0
    · subst h0
      rw [hinv.start_lookup] at hl
      obtain rfl : (0 : Nat) = node := (Option.some.injEq _ _).mp hl
      simpa using hinv.start_label
    · simpa [h0] using hinv.lookup_label tok node h0 hl
  | none =>
    have hE : ensureNode g ns tok =
        ({ nodeLabels := g.nodeLabels ++ [tok], edges := g.edges },
          g.nodeLabels.length, nmInsert ns tok g.nodeLabels.length) := by
      unfold ensureNode
      rw [hl]
      rfl
    rw [hE]
    simp only [List.length_append, List.length_cons, List.length_nil]
    have h0 : tok ≠ 0 := by
      intro h
      rw [h, hinv.start_lookup] at hl
      cases hl
    have hpres : ∀ j, j < g.nodeLabels.length →
        (g.nodeLabels ++ [tok]).get? j = g.nodeLabels.get? j :=
      fun j hj => List.get?_append hj
    have hnew : (g.nodeLabels ++ [tok]).get? g.nodeLabels.length = some tok := by
      rw [List.get?_append_right (le_refl _)]
      simp
    have hstart0 : (0 : Nat) < g.nodeLabels.length :=
      hinv.lookup_lt 0 0 hinv.start_lookup
    refine ⟨?_, ?_, by omega, ?_, trivial, ?_, hpres, by omega⟩
    · refine ⟨?_, ?_, ?_, ?_, ?_, ?_⟩
      · rw [nmLookup_insert, if_neg h0]
        exact hinv.start_lookup
      · rw [hpres 0 hstart0]
        exact hinv.start_label
      · intro a i ha hlook
        rw [nmLookup_insert] at hlook
        by_cases htok : tok = a
        · subst htok
          rw [if_pos rfl] at hlook
          obtain rfl : g.nodeLabels.length = i := (Option.some.injEq _ _).mp hlook
          exact hnew
        · rw [if_neg htok] at hlook
          rw [hpres i (hinv.lookup_lt a i hlook)]
          exact hinv.lookup_label a i ha hlook
      · intro a i hlook
        simp only [List.length_append, List.length_cons, List.length_nil]
        rw [nmLookup_insert] at hlook
        by_cases htok : tok = a
        · rw [if_pos htok] at hlook
          have : g.nodeLabels.length = i := (Option.some.injEq _ _).mp hlook
          omega
        · rw [if_neg htok] at hlook
          have := hinv.lookup_lt a i hlook
          omega
      · intro e he
        have h1 := hinv.edge_ok e he
        simp only [List.length_append, List.length_cons, List.length_nil]
        exact ⟨by omega, by omega, h1.2.2⟩
      · intro e he h1 h2
        have hlt := (hinv.edge_ok e he).1
        have hgd : (g.nodeLabels ++ [tok]).getD e.1 0 = g.nodeLabels.getD e.1 0 := by
          rw [List.getD_eq_get?, List.getD_eq_get?, hpres e.1 hlt]
        rw [hgd]
        exact hinv.edge_label e he h1 h2
    · rw [nmLookup_insert, if_pos rfl]
    · rw [hnew, if_neg h0]
    · intro a j hl2
      rw [nmLookup_insert]
      by_cases htok : tok = a
      · subst htok
        rw [hl] at hl2
        cases hl2
      · rw [if_neg htok]
        exact hl2

/-- `getD` through a successful `get?`. -/
theorem getD_of_get? {l : List Address} {i : Nat} {v : Address}
    (h : l.get? i = some v) : l.getD i 0 = v := by
  rw [List.getD_eq_get?, h]
  rfl

/-- `add_edge` leaves the node labels unchanged. -/
theorem addEdge_nodeLabels (g : Graph) (s t : Nat) (p : Pair) :
    (g.addEdge s t p).nodeLabels = g.nodeLabels := rfl

/-- Adding one edge whose endpoints are in range, whose pair is listed and
whose source is labelled by one of the pair's tokens preserves the
invariant. -/
theorem addEdge_inv {allpairs : List Pair} {traded : Address} {g : Graph} {ns : NodeMap}
    (hinv : GraphInv allpairs traded g ns) (s t : Nat) (p : Pair)
    (hs : s < g.nodeLabels.length) (ht : t < g.nodeLabels.length) (hp : p ∈ allpairs)
    (hlab : p.token0 ≠ 0 → p.token1 ≠ 0 →
      g.nodeLabels.getD s 0 = p.token0 ∨ g.nodeLabels.getD s 0 = p.token1) :
    GraphInv allpairs traded (g.addEdge s t p) ns := by
  refine ⟨hinv.start_lookup, hinv.start_label, hinv.lookup_label, hinv.lookup_lt, ?_, ?_⟩
  · intro e he
    simp only [Graph.addEdge, List.mem_append, List.mem_singleton] at he
    rcases he with he | rfl
    · exact hinv.edge_ok e he
    · exact ⟨hs, ht, hp⟩
  · intro e he h1 h2
    simp only [Graph.addEdge, List.mem_append, List.mem_singleton] at he
    rcases he with he | rfl
    · exact hinv.edge_label e he h1 h2
    · exact hlab h1 h2

/-- `add_pair` preserves the graph-construction invariant. -/
theorem addPair_inv {allpairs : List Pair} {traded : Address} {g : Graph} {ns : NodeMap}
    {p : Pair} {g' : Graph} {ns' : NodeMap}
    (hinv : GraphInv allpairs traded g ns) (hp : p ∈ allpairs)
    (hok : addPair g p ns traded = .ok (g', ns')) : GraphInv allpairs traded g' ns' := by
  obtain ⟨hinv0, hlook0, hlt0, hlab0, hedg0, hpres0, hlpres0, hlen0⟩ :=
    ensureNode_spec allpairs traded g ns p.token0 hinv
  obtain ⟨hinv1, hlook1, hlt1, hlab1, hedg1, hpres1, hlpres1, hlen1⟩ :=
    ensureNode_spec allpairs traded (ensureNode g ns p.token0).1
      (ensureNode g ns p.token0).2.2 p.token1 hinv0
  simp only [addPair] at hok
  have hlab0' := hlpres1 (ensureNode g ns p.token0).2.1 hlt0
  rw [hlab0] at hlab0'
  have hlt0' : (ensureNode g ns p.token0).2.1 <
      (ensureNode (ensureNode g ns p.token0).1 (ensureNode g ns p.token0).2.2
        p.token1).1.nodeLabels.length := by omega
  have hstart_lt : (0 : Nat) <
      (ensureNode (ensureNode g ns p.token0).1 (ensureNode g ns p.token0).2.2
        p.token1).1.nodeLabels.length :=
    hinv1.lookup_lt 0 0 hinv1.start_lookup
  split at hok
  · rename_i ht0
    split at hok
    · cases hok
    · rename_i start_node hstart
      rw [hinv1.start_lookup] at hstart
      obtain rfl : (0 : Nat) = start_node := (Option.some.injEq _ _).mp hstart
      obtain ⟨h1, h2⟩ := Prod.mk.injEq .. |>.mp ((Except.ok.injEq _ _).mp hok)
      subst h1
      subst h2
      have hedge0 : GraphInv allpairs traded
          ((ensureNode (ensureNode g ns p.token0).1 (ensureNode g ns p.token0).2.2
            p.token1).1.addEdge 0 (ensureNode (ensureNode g ns p.token0).1
              (ensureNode g ns p.token0).2.2 p.token1).2.1 p)
          (ensureNode (ensureNode g ns p.token0).1 (ensureNode g ns p.token0).2.2
            p.token1).2.2 := by
        refine addEdge_inv hinv1 _ _ _ hstart_lt hlt1 hp ?_
        intro hz0 _
        left
        rw [getD_of_get? hinv1.start_label, ht0]
      refine addEdge_inv (addEdge_inv hedge0 _ _ _ ?_ ?_ hp ?_) _ _ _ ?_ ?_ hp ?_
      · simpa only [addEdge_nodeLabels] using hlt0'
      · simpa only [addEdge_nodeLabels] using hlt1
      · intro hz0 _
        left
        simp only [addEdge_nodeLabels]
        rw [getD_of_get? hlab0', if_neg hz0]
      · simpa only [addEdge_nodeLabels] using hlt1
      · simpa only [addEdge_nodeLabels] using hlt0'
      · intro _ hz1
        right
        simp only [addEdge_nodeLabels]
        rw [getD_of_get? hlab1, if_neg hz1]
  · rename_i ht0
    split at hok
    · rename_i ht1
      split at hok
      · cases hok
      · rename_i start_node hstart
        rw [hinv1.start_lookup] at hstart
        obtain rfl : (0 : Nat) = start_node := (Option.some.injEq _ _).mp hstart
        obtain ⟨h1, h2⟩ := Prod.mk.injEq .. |>.mp ((Except.ok.injEq _ _).mp hok)
        subst h1
        subst h2
        have hedge0 : GraphInv allpairs traded
            ((ensureNode (ensureNode g ns p.token0).1 (ensureNode g ns p.token0).2.2
              p.token1).1.addEdge 0 (ensureNode g ns p.token0).2.1 p)
            (ensureNode (ensureNode g ns p.token0).1 (ensureNode g ns p.token0).2.2
              p.token1).2.2 := by
          refine addEdge_inv hinv1 _ _ _ hstart_lt hlt0' hp ?_
          intro _ hz1
          right
          rw [getD_of_get? hinv1.start_label, ht1]
        refine addEdge_inv (addEdge_inv hedge0 _ _ _ ?_ ?_ hp ?_) _ _ _ ?_ ?_ hp ?_
        · simpa only [addEdge_nodeLabels] using hlt0'
        · simpa only [addEdge_nodeLabels] using hlt1
        · intro hz0 _
          left
          simp only [addEdge_nodeLabels]
          rw [getD_of_get? hlab0', if_neg hz0]
        · simpa only [addEdge_nodeLabels] using hlt1
        · simpa only [addEdge_nodeLabels] using hlt0'
        · intro _ hz1
          right
          simp only [addEdge_nodeLabels]
          rw [getD_of_get? hlab1, if_neg hz1]
    · obtain ⟨h1, h2⟩ := Prod.mk.injEq .. |>.mp ((Except.ok.injEq _ _).mp hok)
      subst h1
      subst h2
      refine addEdge_inv (addEdge_inv hinv1 _ _ _ ?_ ?_ hp ?_) _ _ _ ?_ ?_ hp ?_
      · exact hlt0'
      · exact hlt1
      · intro hz0 _
        left
        rw [getD_of_get? hlab0', if_neg hz0]
      · simpa only [addEdge_nodeLabels] using hlt1
      · simpa only [addEdge_nodeLabels] using hlt0'
      · intro _ hz1
        right
        simp only [addEdge_nodeLabels]
        rw [getD_of_get? hlab1, if_neg hz1]

/-- The `create_graph` pair loop preserves the invariant. -/
theorem createGraphLoop_inv {allpairs : List Pair} {traded : Address} :
    ∀ (rest : List Pair) (g : Graph) (ns : NodeMap) (g' : Graph) (ns' : NodeMap),
    GraphInv allpairs traded g ns → (∀ p ∈ rest, p ∈ allpairs) →
    createGraphLoop traded rest g ns = .ok (g', ns') → GraphInv allpairs traded g' ns'
  | [], g, ns, g', ns', hinv, _, hok => by
    obtain ⟨h1, h2⟩ := Prod.mk.injEq .. |>.mp ((Except.ok.injEq _ _).mp hok)
    subst h1
    subst h2
    exact hinv
  | p :: rest, g, ns, g', ns', hinv, hall, hok => by
    rw [createGraphLoop] at hok
    split at hok
    · cases hok
    · rename_i st haddp
      exact createGraphLoop_inv rest _ _ g' ns'
        (addPair_inv hinv (hall p (List.mem_cons_self p rest)) haddp)
        (fun q hq => hall q (List.mem_cons_of_mem p hq)) hok

/-- `create_graph` on an empty node map establishes the invariant. -/
theorem createGraph_inv {allpairs : List Pair} {traded : Address} {g : Graph}
    {ns : NodeMap} (h : createGraph allpairs [] traded = .ok (g, ns)) :
    GraphInv allpairs traded g ns := by
  unfold createGraph at h
  refine createGraphLoop_inv allpairs _ _ g ns ?_ (fun p hp => hp) h
  refine ⟨by simp [nmInsert, nmLookup, Graph.addNode], by simp [Graph.addNode], ?_, ?_, ?_, ?_⟩
  · intro a i ha hlook
    simp [nmInsert, nmLookup, Ne.symm ha] at hlook
  · intro a i hlook
    simp only [nmInsert, nmLookup] at hlook
    split at hlook
    · obtain rfl : (0 : Nat) = i := (Option.some.injEq _ _).mp hlook
      simp [Graph.addNode]
    · cases hlook
  · intro e he
    simp [Graph.addNode] at he
  · intro e he
    simp [Graph.addNode] at he

/-! ## Walk and successor lemmas -/

/-- A walk has one edge per visited node. -/
theorem walkChain_length {g : Graph} :
    ∀ {n w ms es nfin wfin}, WalkChain g n w ms es nfin wfin → ms.length = es.length := by
  intro n w ms es nfin wfin h
  induction h with
  | nil => rfl
  | cons _ _ _ _ _ _ _ _ _ _ _ _ _ ih => simpa using ih

/-- The end node of a walk is the last entry of its node sequence, whatever
the default. -/
theorem walkChain_lastD {g : Graph} :
    ∀ {n w ms es nfin wfin}, WalkChain g n w ms es nfin wfin →
      ∀ d, (n :: ms).getLastD d = nfin := by
  intro n w ms es nfin wfin h
  induction h with
  | nil => intro d; rfl
  | cons n w m ms e es p w' nfin wfin hedge hcw hrest ih =>
    intro d
    rw [List.getLastD_cons]
    exact ih n

/-- Extending a walk by one successfully weighted edge from its end node. -/
theorem walkChain_append {g : Graph} :
    ∀ {n w ms es nfin wfin}, WalkChain g n w ms es nfin wfin →
      ∀ {m e p w2}, g.edges.get? e = some (nfin, m, p) →
      p.calculate_weight (g.nodeLabels.getD nfin 0) wfin = .ok w2 →
      WalkChain g n w (ms ++ [m]) (es ++ [e]) m w2 := by
  intro n w ms es nfin wfin h
  induction h with
  | nil n w =>
    intro m e p w2 hedge hcw
    exact .cons n w m [] e [] p w2 m w2 hedge hcw (.nil m w2)
  | cons n w m1 ms1 e1 es1 p1 w1 nfin wfin hedge1 hcw1 hrest ih =>
    intro m e p w2 hedge hcw
    exact .cons n w m1 (ms1 ++ [m]) e1 (es1 ++ [e]) p1 w1 m w2 hedge1 hcw1
      (ih hedge hcw)

/-- A walk ending with a positive amount started with a positive amount. -/
theorem walkChain_pos {g : Graph} :
    ∀ {n w ms es nfin wfin}, WalkChain g n w ms es nfin wfin → 0 < wfin → 0 < w := by
  intro n w ms es nfin wfin h
  induction h with
  | nil => exact fun hp => hp
  | cons n w m ms e es p w' nfin wfin hedge hcw hrest ih =>
    intro hpos
    have hw' : 0 < w' := ih hpos
    rcases Nat.eq_zero_or_pos w with hz | hp
    · subst hz
      have := calculate_weight_zero p _ w' hcw
      omega
    · exact hp

/-- Membership in the indexed edge enumeration. -/
theorem mem_enumEdges :
    ∀ (l : List (Nat × Nat × Pair)) (i : Nat) (x : Nat × Nat × Nat × Pair),
      x ∈ enumEdges i l → ∃ k, x.1 = i + k ∧ l.get? k = some x.2
  | [], i, x, hx => by cases hx
  | e :: es, i, x, hx => by
    rw [enumEdges] at hx
    rcases List.mem_cons.mp hx with rfl | hx
    · exact ⟨0, by omega, rfl⟩
    · obtain ⟨k, hk, hget⟩ := mem_enumEdges es (i + 1) x hx
      exact ⟨k + 1, by omega, hget⟩

/-- Every triple produced by the `succOf` loop comes from a listed edge with
a successfully computed weight. -/
theorem succOf_ok_mem {node_token : Address} {cur_weight : Nat} :
    ∀ {lst : List (Nat × Nat × Nat × Pair)} {out : List (Nat × Nat × Nat)},
      succOf node_token cur_weight lst = .ok out →
      ∀ t ∈ out, ∃ src p, (t.1, src, t.2.1, p) ∈ lst ∧
        p.calculate_weight node_token cur_weight = .ok t.2.2 := by
  intro lst
  induction lst with
  | nil =>
    intro out hok t ht
    rw [succOf] at hok
    obtain rfl : ([] : List (Nat × Nat × Nat)) = out := (Except.ok.injEq _ _).mp hok
    cases ht
  | cons x rest ih =>
    intro out hok t ht
    obtain ⟨idx, src, tgt, p⟩ := x
    rw [succOf] at hok
    split at hok
    · cases hok
    · rename_i w hw
      split at hok
      · cases hok
      · rename_i l hl
        obtain rfl : (idx, tgt, w) :: l = out := (Except.ok.injEq _ _).mp hok
        rcases List.mem_cons.mp ht with rfl | ht
        · exact ⟨src, p, List.mem_cons_self _ _, hw⟩
        · obtain ⟨src', p', hmem, hcw⟩ := ih hl t ht
          exact ⟨src', p', List.mem_cons_of_mem _ hmem, hcw⟩

/-- Every triple produced by `get_successors` names an edge leaving `node`
whose weight was computed from the node's label and the current amount. -/
theorem getSuccessors_ok_mem {g : Graph} {node cur_weight : Nat}
    {out : List (Nat × Nat × Nat)} (hok : getSuccessors g node cur_weight = .ok out) :
    ∀ t ∈ out, ∃ p, g.edges.get? t.1 = some (node, t.2.1, p) ∧
      p.calculate_weight (g.nodeLabels.getD node 0) cur_weight = .ok t.2.2 := by
  intro t ht
  unfold getSuccessors at hok
  obtain ⟨src, p, hmem, hcw⟩ := succOf_ok_mem hok t ht
  obtain ⟨hmem', hsrc⟩ := List.mem_filter.mp hmem
  obtain ⟨k, hk, hget⟩ := mem_enumEdges _ 0 _ hmem'
  have hsrc' : src = node := by simpa using hsrc
  subst hsrc'
  refine ⟨p, ?_, hcw⟩
  rw [show t.1 = k by omega]
  exact hget

/-- The successor loop preserves the best-path invariant, given that the
recursive visit it is handed does. -/
theorem searchLoop_good {g : Graph} {goal s0 a0 : Nat}
    (visit : SearchPath → Memo → SearchPath → Except ArbitrageError (Memo × SearchPath))
    (IH : ∀ (cur : SearchPath) (seen : Memo) (best : SearchPath)
      (out : Memo × SearchPath), GoodState g s0 a0 cur → GoodBest g s0 a0 goal best →
      visit cur seen best = .ok out → GoodBest g s0 a0 goal out.2) :
    ∀ (succs : List (Nat × Nat × Nat)) (cur : SearchPath) (seen : Memo)
      (best : SearchPath) (out : Memo × SearchPath),
      GoodState g s0 a0 cur → GoodBest g s0 a0 goal best →
      (∀ t ∈ succs, SuccProp g cur t) →
      searchLoop g visit cur succs seen best = .ok out → GoodBest g s0 a0 goal out.2
  | [], cur, seen, best, out, hcur, hbest, _, hrun => by
    rw [searchLoop] at hrun
    obtain rfl := (Except.ok.injEq _ _).mp hrun
    exact hbest
  | (edge, node, weight) :: rest, cur, seen, best, out, hcur, hbest, hsuccs, hrun => by
    rw [searchLoop] at hrun
    split at hrun
    · exact searchLoop_good visit IH rest cur seen best out hcur hbest
        (fun t ht => hsuccs t (List.mem_cons_of_mem _ ht)) hrun
    · rename_i hcont
      split at hrun
      · cases hrun
      · rename_i seen1 best1 hvisit
        obtain ⟨rest0, nfin, htok, hchain, hnodup⟩ := hcur
        obtain ⟨p, hedge, hcw⟩ := hsuccs (edge, node, weight) (List.mem_cons_self _ _)
        have hlast : cur.token_order.getLastD 0 = nfin := by
          rw [htok]
          exact walkChain_lastD hchain 0
        rw [hlast] at hedge hcw
        have hnotmem : edge ∉ cur.pair_order := by simpa using hcont
        have hext : GoodState g s0 a0
            { token_order := cur.token_order ++ [node],
              pair_order := cur.pair_order ++ [edge], weight := weight } := by
          refine ⟨rest0 ++ [node], node, ?_, ?_, ?_⟩
          · rw [htok]
            rfl
          · exact walkChain_append hchain hedge hcw
          · rw [List.nodup_append]
            refine ⟨hnodup, List.nodup_singleton _, ?_⟩
            intro a ha hb
            rw [List.mem_singleton] at hb
            subst hb
            exact hnotmem ha
        have hbest1 := IH _ _ _ _ hext hbest hvisit
        exact searchLoop_good visit IH rest cur seen1 best1 out
          ⟨rest0, nfin, htok, hchain, hnodup⟩ hbest1
          (fun t ht => hsuccs t (List.mem_cons_of_mem _ ht)) hrun

/-- `search_visit` preserves the best-path invariant. -/
theorem searchVisit_good {g : Graph} {goal s0 a0 : Nat} :
    ∀ (fuel : Nat) (cur : SearchPath) (seen : Memo) (best : SearchPath)
      (out : Memo × SearchPath),
      GoodState g s0 a0 cur → GoodBest g s0 a0 goal best →
      searchVisit g goal fuel cur seen best = .ok out → GoodBest g s0 a0 goal out.2 := by
  intro fuel
  induction fuel with
  | zero =>
    intro cur seen best out hcur hbest hrun
    rw [searchVisit] at hrun
    obtain rfl := (Except.ok.injEq _ _).mp hrun
    exact hbest
  | succ f ih =>
    intro cur seen best out hcur hbest hrun
    simp only [searchVisit] at hrun
    split at hrun
    · obtain rfl := (Except.ok.injEq _ _).mp hrun
      exact hbest
    · rename_i hguard
      split at hrun
      · rename_i htarget
        split at hrun
        · rename_i hgt
          obtain rfl := (Except.ok.injEq _ _).mp hrun
          obtain ⟨rest0, nfin, htok, hchain, hnodup⟩ := hcur
          show GoodBest g s0 a0 goal cur
          right
          have hnfin : nfin = goal := by
            rw [htok] at htarget
            rw [walkChain_lastD hchain 0] at htarget
            exact htarget
          subst hnfin
          exact ⟨rest0, htok, hchain, hnodup, by omega, by omega⟩
        · obtain rfl := (Except.ok.injEq _ _).mp hrun
          exact hbest
      · split at hrun
        · obtain rfl := (Except.ok.injEq _ _).mp hrun
          exact hbest
        · rename_i seen1 hmemo
          split at hrun
          · cases hrun
          · rename_i succs hsucc
            exact searchLoop_good (fun c s b => searchVisit g goal f c s b)
              (fun cur' seen' best' out' => ih cur' seen' best' out')
              succs cur seen1 best out hcur hbest
              (fun t ht => getSuccessors_ok_mem hsucc t ht) hrun

/-- The search of `find_shortest_path` returns a best path satisfying the
invariant. -/
theorem findBest_good {g : Graph} {ns : NodeMap} {target : Address} {a0 : Nat}
    {best : SearchPath} {goal s0 : Nat}
    (hgoal : nmLookup ns target = some goal) (hstart : nmLookup ns 0 = some s0)
    (h : findBestSearchPath g ns target a0 = .ok best) :
    GoodBest g s0 a0 goal best := by
  unfold findBestSearchPath at h
  rw [hgoal, hstart] at h
  split at h
  · rename_i hc
    cases hc
  · rename_i goal' hgoal'
    obtain rfl : goal = goal' := (Option.some.injEq _ _).mp hgoal'
    split at h
    · rename_i hc
      cases hc
    · rename_i s0' hstart'
      obtain rfl : s0 = s0' := (Option.some.injEq _ _).mp hstart'
      split at h
      · cases h
      · rename_i seenf bestf hrun
        obtain rfl := (Except.ok.injEq _ _).mp h
        exact searchVisit_good SEARCH_FUEL _ [] _ (seenf, bestf)
          ⟨[], s0, rfl, .nil s0 a0, List.nodup_nil⟩ (Or.inl rfl) hrun

/-- The `succOf` loop cannot panic with `TokenNotInPair` when every listed
edge's pair contains the node token. -/
theorem succOf_no_tnip {node_token : Address} {w : Nat} :
    ∀ (lst : List (Nat × Nat × Nat × Pair)),
      (∀ x ∈ lst, node_token = x.2.2.2.token0 ∨ node_token = x.2.2.2.token1) →
      succOf node_token w lst ≠ .error .TokenNotInPair
  | [], _, h => by rw [succOf] at h; cases h
  | (idx, src, tgt, p) :: rest, hcond, h => by
    rw [succOf] at h
    split at h
    · rename_i e hcw
      obtain rfl : e = .TokenNotInPair := (Except.error.injEq _ _).mp h
      exact calculate_weight_tnip p node_token w hcw (hcond _ (List.mem_cons_self _ _))
    · split at h
      · rename_i e hrest
        obtain rfl : e = .TokenNotInPair := (Except.error.injEq _ _).mp h
        exact succOf_no_tnip rest (fun x hx => hcond x (List.mem_cons_of_mem _ hx)) hrest
      · cases h

/-- On a graph built by `create_graph` from pairs free of the zero address,
`get_successors` never panics with `TokenNotInPair`, at any node and
weight. -/
theorem getSuccessors_no_tnip {allpairs : List Pair} {traded : Address} {g : Graph}
    {ns : NodeMap} (hinv : GraphInv allpairs traded g ns)
    (hz : ∀ p ∈ allpairs, p.token0 ≠ 0 ∧ p.token1 ≠ 0) (node w : Nat) :
    getSuccessors g node w ≠ .error .TokenNotInPair := by
  unfold getSuccessors
  apply succOf_no_tnip
  intro x hx
  obtain ⟨hmem, hsrc⟩ := List.mem_filter.mp hx
  obtain ⟨k, hk, hget⟩ := mem_enumEdges _ 0 _ hmem
  have hxmem : x.2 ∈ g.edges := List.get?_mem hget
  have hsrc' : x.2.1 = node := by simpa using hsrc
  have hzp := hz x.2.2.2 ((hinv.edge_ok x.2 hxmem).2.2)
  have hlab := hinv.edge_label x.2 hxmem hzp.1 hzp.2
  rw [hsrc'] at hlab
  exact hlab

/-- The successor loop never returns `TokenNotInPair` if the recursive
visit it is handed does not. -/
theorem searchLoop_no_tnip {g : Graph}
    (visit : SearchPath → Memo → SearchPath → Except ArbitrageError (Memo × SearchPath))
    (IH : ∀ (cur : SearchPath) (seen : Memo) (best : SearchPath),
      visit cur seen best ≠ .error .TokenNotInPair) :
    ∀ (succs : List (Nat × Nat × Nat)) (cur : SearchPath) (seen : Memo)
      (best : SearchPath),
      searchLoop g visit cur succs seen best ≠ .error .TokenNotInPair
  | [], cur, seen, best, h => by rw [searchLoop] at h; cases h
  | (edge, node, weight) :: rest, cur, seen, best, h => by
    rw [searchLoop] at h
    split at h
    · exact searchLoop_no_tnip visit IH rest cur seen best h
    · split at h
      · rename_i e hvisit
        obtain rfl : e = .TokenNotInPair := (Except.error.injEq _ _).mp h
        exact IH _ _ _ hvisit
      · rename_i seen1 best1 hvisit
        exact searchLoop_no_tnip visit IH rest cur seen1 best1 h

/-- On a graph built by `create_graph` from pairs free of the zero address,
`search_visit` never panics with `TokenNotInPair`. -/
theorem searchVisit_no_tnip {allpairs : List Pair} {traded : Address} {g : Graph}
    {ns : NodeMap} {goal : Nat} (hinv : GraphInv allpairs traded g ns)
    (hz : ∀ p ∈ allpairs, p.token0 ≠ 0 ∧ p.token1 ≠ 0) :
    ∀ (fuel : Nat) (cur : SearchPath) (seen : Memo) (best : SearchPath),
      searchVisit g goal fuel cur seen best ≠ .error .TokenNotInPair := by
  intro fuel
  induction fuel with
  | zero =>
    intro cur seen best h
    rw [searchVisit] at h
    cases h
  | succ f ih =>
    intro cur seen best h
    simp only [searchVisit] at h
    split at h
    · cases h
    · split at h
      · split at h
        · cases h
        · cases h
      · split at h
        · cases h
        · rename_i seen1 hmemo
          split at h
          · rename_i e hsucc
            obtain rfl : e = .TokenNotInPair := (Except.error.injEq _ _).mp h
            exact getSuccessors_no_tnip hinv hz _ _ hsucc
          · rename_i succs hsucc
            exact searchLoop_no_tnip (fun c s b => searchVisit g goal f c s b)
              (fun cur' seen' best' => ih cur' seen' best') succs cur seen1 best h

/-- What a successful `from_search_path` node conversion says, entry by
entry. -/
theorem mapNodes_ok_forall {g : Graph} :
    ∀ {l : List Nat} {out : List Address}, mapNodes g l = .ok out →
      List.Forall₂ (fun i a => g.nodeLabels.get? i = some a) l out
  | [], out, h => by
    rw [mapNodes] at h
    obtain rfl := (Except.ok.injEq _ _).mp h
    exact .nil
  | n :: rest, out, h => by
    rw [mapNodes] at h
    split at h
    · cases h
    · rename_i address haddr
      split at h
      · cases h
      · rename_i l hl
        obtain rfl := (Except.ok.injEq _ _).mp h
        exact .cons haddr (mapNodes_ok_forall hl)

/-- What a successful `from_search_path` edge conversion says, entry by
entry. -/
theorem mapEdges_ok_forall {g : Graph} :
    ∀ {l : List Nat} {out : List PairLookup}, mapEdges g l = .ok out →
      List.Forall₂ (fun e pl => ∃ t, g.edges.get? e = some t ∧
        pl = ⟨t.2.2.factory_address, t.2.2.get_tokens⟩) l out
  | [], out, h => by
    rw [mapEdges] at h
    obtain rfl := (Except.ok.injEq _ _).mp h
    exact .nil
  | n :: rest, out, h => by
    rw [mapEdges] at h
    split at h
    · cases h
    · rename_i edge hedge
      split at h
      · cases h
      · rename_i l hl
        obtain rfl := (Except.ok.injEq _ _).mp h
        exact .cons ⟨edge, hedge, rfl⟩ (mapEdges_ok_forall hl)

/-- Replaying a positive-weight search walk through
`Path::get_amounts_out`: the evaluation succeeds and its final element is
the walk's final weight. -/
theorem walkChain_amounts {g : Graph} {protocols : Protocols} {allpairs : List Pair}
    (hres : Resolves protocols allpairs)
    (hedges : ∀ e ∈ g.edges, e.2.2 ∈ allpairs) :
    ∀ {n w ms es nfin wfin}, WalkChain g n w ms es nfin wfin → 0 < wfin →
    ∀ {tokens : List Address} {lookups : List PairLookup},
      List.Forall₂ (fun i a => g.nodeLabels.get? i = some a) (n :: ms) tokens →
      List.Forall₂ (fun e pl => ∃ t, g.edges.get? e = some t ∧
        pl = ⟨t.2.2.factory_address, t.2.2.get_tokens⟩) es lookups →
      ∃ amounts, amountsOutGo protocols tokens lookups w = .ok amounts ∧
        amounts ≠ [] ∧ amounts.getLastD 0 = wfin := by
  intro n w ms es nfin wfin h
  induction h with
  | nil n w =>
    intro hpos tokens lookups htok hlk
    cases hlk
    cases htok with
    | cons hlab htail =>
      cases htail
      exact ⟨[w], by rw [amountsOutGo], by simp, rfl⟩
  | cons n w m ms e es p w' nfin wfin hedge hcw hrest ih =>
    intro hpos tokens lookups htok hlk
    cases htok with
    | cons hlab htokrest =>
      cases hlk with
      | cons hpl hlkrest =>
        rename_i a tokens' pl lookups'
        obtain ⟨t, hget, hpl_eq⟩ := hpl
        rw [hedge] at hget
        obtain rfl : (n, m, p) = t := (Option.some.injEq _ _).mp hget
        subst hpl_eq
        have hwpos : 0 < w' := walkChain_pos hrest hpos
        rcases calculate_weight_ok_cases p _ w w' hcw with hgao | ⟨-, hz⟩
        · have hp_mem : p ∈ allpairs := hedges (n, m, p) (List.get?_mem hedge)
          have hres_p := hres p hp_mem
          obtain ⟨pairs, hproto, hpair⟩ : ∃ pairs,
              protocolsLookup protocols p.factory_address = some pairs ∧
              pairsLookup pairs (p.token0, p.token1) = some p := by
            cases hpl2 : protocolsLookup protocols p.factory_address with
            | none => rw [hpl2] at hres_p; cases hres_p
            | some pairs =>
              rw [hpl2] at hres_p
              exact ⟨pairs, rfl, by simpa using hres_p⟩
          have hlabD : g.nodeLabels.getD n 0 = a := getD_of_get? hlab
          rw [hlabD] at hgao
          obtain ⟨amounts, hgo, hne, hlast⟩ := ih hpos htokrest hlkrest
          refine ⟨w :: amounts, ?_, by simp, ?_⟩
          · rw [amountsOutGo]
            simp only [Pair.get_tokens, hproto, hpair, hgao, hgo]
          · rw [List.getLastD_cons]
            cases amounts with
            | nil => exact absurd rfl hne
            | cons b bs =>
              rw [List.getLastD_cons] at hlast
              rw [List.getLastD_cons]
              exact hlast
        · omega

/-- Heads of `Forall₂`-related lists are related. -/
theorem forall2_head? {α β : Type} {R : α → β → Prop} {l1 : List α} {l2 : List β}
    (h : List.Forall₂ R l1 l2) {x : α} (hx : l1.head? = some x) :
    ∃ y, l2.head? = some y ∧ R x y := by
  cases h with
  | nil => cases hx
  | cons hab t =>
    obtain rfl := (Option.some.injEq _ _).mp hx
    exact ⟨_, rfl, hab⟩

/-- Last elements of `Forall₂`-related lists are related. -/
theorem forall2_getLast? {α β : Type} {R : α → β → Prop} {l1 : List α} {l2 : List β}
    (h : List.Forall₂ R l1 l2) {x : α} (hx : l1.getLast? = some x) :
    ∃ y, l2.getLast? = some y ∧ R x y := by
  rw [← List.head?_reverse] at hx
  obtain ⟨y, hy, hr⟩ := forall2_head? (List.rel_reverse h) hx
  rw [List.head?_reverse] at hy
  exact ⟨y, hy, hr⟩

/-- `max_by_key` returns an element of its list. -/
theorem maxByKey_mem {α : Type} (key : α → Nat) :
    ∀ (l : List α) (a : α), maxByKey key l = some a → a ∈ l := by
  have main : ∀ (l : List α) (acc : Option α) (a : α),
      l.foldl (fun acc x => match acc with
        | none => some x
        | some m => if key x ≥ key m then some x else some m) acc = some a →
      acc = some a ∨ a ∈ l := by
    intro l
    induction l with
    | nil =>
      intro acc a h
      exact Or.inl h
    | cons x rest ih =>
      intro acc a h
      rw [List.foldl_cons] at h
      rcases ih _ a h with hacc | hmem
      · cases acc with
        | none =>
          obtain rfl := (Option.some.injEq _ _).mp hacc
          exact Or.inr (List.mem_cons_self _ _)
        | some m =>
          have hacc' : (if key x ≥ key m then some x else some m) = some a := hacc
          by_cases hk : key x ≥ key m
          · rw [if_pos hk] at hacc'
            obtain rfl := (Option.some.injEq _ _).mp hacc'
            exact Or.inr (List.mem_cons_self _ _)
          · rw [if_neg hk] at hacc'
            exact Or.inl hacc'
      · exact Or.inr (List.mem_cons_of_mem _ hmem)
  intro l a h
  rcases main l none a h with hacc | hmem
  · cases hacc
  · exact hmem

/-- `getLast?` of a nonempty list, via `getLastD`. -/
theorem getLast?_cons_eq_getLastD {α : Type} (a : α) (l : List α) (d : α) :
    (a :: l).getLast? = some ((a :: l).getLastD d) := by
  induction l generalizing a d with
  | nil => rfl
  | cons b bs ih =>
    rw [List.getLast?_cons_cons, List.getLastD_cons]
    exact ih b a

/-! ## Claim theorems -/

/-- C9: for every pair whose ordered reserves are both nonzero, whose fee is
below 10000 and whose input token is in the pair, a successful
`get_amount_out` quote is strictly less than the output-side reserve: an
exact-in quote can never equal or exceed the reserve it draws from. -/
theorem claim_C9 (p : Pair) (tok : Address) (x y : Nat) (res : OrderedReserves)
    (hres : p.get_ordered_reserves tok = .ok res) (hfee : p.fee < 10000)
    (hin : 0 < res.input) (hout : 0 < res.output)
    (hok : p.get_amount_out tok x = .ok y) : y < res.output :=
  amount_out_lt_output p tok x y res hres hok

/-- C9 witness: the scenario pool quotes 90 for input 100, strictly below
the 1000 output reserve. -/
theorem claim_C9_witness :
    pRA.get_ordered_reserves 1 = .ok ⟨1000, 1000⟩ ∧
    pRA.get_amount_out 1 100 = .ok 90 ∧ 90 < 1000 :=
  ⟨by decide, by decide,
    claim_C9 pRA 1 100 90 ⟨1000, 1000⟩ (by decide) (by decide) (by decide) (by decide)
      (by decide)⟩

/-- C1: over any candidate list built by `PossibleArbitrage::new` (as
`simulate_trades` builds them), if `get_profitable_arbitrage` returns an
opportunity then its profit strictly exceeds its gas cost and equals
`saturating_sub(output, input)`; when no candidate's profit exceeds its gas
cost, it returns `none`. -/
theorem claim_C1 (transaction_attempts : Nat) (arbitrages : List PossibleArbitrage)
    (hbuilt : ∀ a ∈ arbitrages, ∃ path gas output input,
      a = PossibleArbitrage.new path gas output input transaction_attempts) :
    (∀ arb, get_profitable_arbitrage arbitrages = some arb →
      arb.gas_in_eth < arb.profit ∧ arb.profit = saturatingSub arb.output arb.input) ∧
    ((∀ a ∈ arbitrages, ¬ a.gas_in_eth < a.profit) →
      get_profitable_arbitrage arbitrages = none) := by
  constructor
  · intro arb harb
    unfold get_profitable_arbitrage at harb
    cases hmax : maxByKey (fun a => saturatingSub a.profit a.gas_in_eth) arbitrages with
    | none =>
      rw [hmax] at harb
      cases harb
    | some a =>
      rw [hmax] at harb
      have harb' : (if saturatingSub a.profit a.gas_in_eth > 0 then some a else none) =
          some arb := harb
      by_cases hpos : saturatingSub a.profit a.gas_in_eth > 0
      · rw [if_pos hpos] at harb'
        obtain rfl := (Option.some.injEq _ _).mp harb'
        constructor
        · simp only [saturatingSub] at hpos
          omega
        · obtain ⟨path, gas, output, input, rfl⟩ :=
            hbuilt a (maxByKey_mem _ arbitrages a hmax)
          rfl
      · rw [if_neg hpos] at harb'
        cases harb'
  · intro hnone
    unfold get_profitable_arbitrage
    cases hmax : maxByKey (fun a => saturatingSub a.profit a.gas_in_eth) arbitrages with
    | none => rfl
    | some a =>
      have ha := maxByKey_mem _ arbitrages a hmax
      have hng := hnone a ha
      show (if saturatingSub a.profit a.gas_in_eth > 0 then some a else none) = none
      rw [if_neg]
      simp only [saturatingSub]
      omega

/-- C1 witness: a candidate with output 5, input 1 and zero gas price is
emitted with profit 4 above its zero gas cost. -/
theorem claim_C1_witness :
    get_profitable_arbitrage [arbSample] = some arbSample ∧
    arbSample.gas_in_eth < arbSample.profit ∧
    arbSample.profit = saturatingSub arbSample.output arbSample.input :=
  ⟨by decide,
    (claim_C1 1 [arbSample] (by
      intro a ha
      rw [List.mem_singleton] at ha
      subst ha
      exact ⟨pathRA, .Legacy 0, 5, 1, rfl⟩)).1 arbSample (by decide)⟩

/-- C3 counterexample: on the scenario pool (both reserves 1000, token 1 in
the pair), requesting the full output reserve makes `get_amount_in` return
`Ok(U256::max_value())` — not the `NoLiquidity` error the claim requires. -/
theorem claim_C3_counterexample :
    pRA.reserve0 = 1000 ∧ pRA.reserve1 = 1000 ∧ 1000 ≤ (1000 : Nat) ∧
    pRA.get_amount_in 1 1000 = .ok U256_MAX ∧
    pRA.get_amount_in 1 1000 ≠ .error .NoLiquidity := by decide

/-- C3 amended: for every pair with both ordered reserves nonzero, an input
token in the pair, a fee of at most 10000, and a requested output at least
the output-side reserve whose numerator stays in 256-bit range,
`get_amount_in` returns `Ok(U256::max_value())` (the saturated division by
the zero denominator), not a `NoLiquidity` error. -/
theorem claim_C3_amended (p : Pair) (tok : Address) (y : Nat) (res : OrderedReserves)
    (hres : p.get_ordered_reserves tok = .ok res)
    (hin : 0 < res.input) (hout : 0 < res.output) (hfee : p.fee ≤ 10000)
    (hy : res.output ≤ y)
    (hb1 : res.input * y < U256_MOD) (hb2 : res.input * y * 10000 < U256_MOD) :
    p.get_amount_in tok y = .ok U256_MAX := by
  unfold Pair.get_amount_in
  rw [hres]
  simp only [checkedSub, checkedMul, checkedAdd, checkedDiv, saturatingSub, saturatingAdd]
  rw [if_neg (by omega), if_pos hfee]
  simp only [if_pos hb1, if_pos hb2]
  have hz : res.output - y = 0 := by omega
  rw [hz]
  have hMOD : 0 < U256_MOD := by
    unfold U256_MOD
    positivity
  rw [Nat.zero_mul, if_pos hMOD]
  show Except.ok
      (((if (0 : Nat) = 0 then none else some (res.input * y * 10000 / 0)).getD
        U256_MAX + 1) ⊓ U256_MAX) = Except.ok U256_MAX
  rw [if_pos rfl, Option.getD_none, min_eq_right (Nat.le_succ _)]

/-- C3 witness: the amended theorem at the counterexample input. -/
theorem claim_C3_witness : pRA.get_amount_in 1 1000 = .ok U256_MAX :=
  claim_C3_amended pRA 1 1000 ⟨1000, 1000⟩ (by decide) (by decide) (by decide)
    (by decide) (by decide) (by decide) (by decide)

/-- C5 counterexample: a memo entry exactly equal to the current weight does
not prune — the code continues (and rewrites the entry), where the claim
requires pruning on `entry ≥ weight`. -/
theorem claim_C5_counterexample :
    memoLookup [((2, 0), 5)] (2, 0) = some 5 ∧ (5 : Nat) ≥ 5 ∧
    memoStep [((2, 0), 5)] (2, 0) 5 ≠ none ∧
    memoStep [((2, 0), 5)] (2, 0) 5 = some (memoInsert [((2, 0), 5)] (2, 0) 5) := by
  decide

/-- C5 amended: the memo prunes exactly when the stored entry is strictly
greater than the current weight; otherwise (ties included) the current
weight is written and the branch continues.  When the memo prunes at a
non-goal node within the depth bound, `search_visit` returns with the memo
and best path unchanged (no successor expanded). -/
theorem claim_C5_amended :
    (∀ (seen : Memo) (key : Nat × Nat) (w : Nat),
      (memoStep seen key w = none ↔ ∃ e, memoLookup seen key = some e ∧ w < e) ∧
      (∀ m, memoStep seen key w = some m → m = memoInsert seen key w)) ∧
    (∀ (g : Graph) (target : Nat) (fuel : Nat) (cur : SearchPath) (seen : Memo)
      (best : SearchPath),
      cur.pair_order.length ≤ MAX_NUM_SWAPS →
      cur.token_order.getLastD 0 ≠ target →
      memoStep seen (cur.token_order.getLastD 0, cur.pair_order.length) cur.weight =
        none →
      searchVisit g target (fuel + 1) cur seen best = .ok (seen, best)) := by
  constructor
  · intro seen key w
    constructor
    · cases hl : memoLookup seen key with
      | none =>
        have hstep : memoStep seen key w = some (memoInsert seen key w) := by
          unfold memoStep
          rw [hl]
        rw [hstep]
        simp
      | some e0 =>
        have hstep : memoStep seen key w =
            if e0 > w then none else some (memoInsert seen key w) := by
          unfold memoStep
          rw [hl]
        rw [hstep]
        by_cases hgt : e0 > w
        · rw [if_pos hgt]
          exact ⟨fun _ => ⟨e0, rfl, hgt⟩, fun _ => rfl⟩
        · rw [if_neg hgt]
          constructor
          · intro h
            exact Option.noConfusion h
          · rintro ⟨e, he, hw⟩
            obtain rfl : e0 = e := (Option.some.injEq _ _).mp he
            omega
    · intro m hm
      unfold memoStep at hm
      cases hl : memoLookup seen key with
      | none =>
        rw [hl] at hm
        exact ((Option.some.injEq _ _).mp hm).symm
      | some e0 =>
        rw [hl] at hm
        have hm' : (if e0 > w then none else some (memoInsert seen key w)) = some m := hm
        by_cases hgt : e0 > w
        · rw [if_pos hgt] at hm'
          cases hm'
        · rw [if_neg hgt] at hm'
          exact ((Option.some.injEq _ _).mp hm').symm
  · intro g target fuel cur seen best hlen htarget hmemo
    simp only [searchVisit]
    rw [if_neg (by omega), if_neg htarget, hmemo]

/-- C5 witness: the amended theorem exercised on a strictly greater entry,
both at the memo level and in `search_visit` on the scenario graph. -/
theorem claim_C5_witness :
    memoStep [((2, 0), 7)] (2, 0) 5 = none ∧
    searchVisit gRA 1 (SEARCH_FUEL + 1)
      { token_order := [0], pair_order := [], weight := 5 } [((0, 0), 7)]
      { token_order := [], pair_order := [], weight := 0 } =
      .ok ([((0, 0), 7)], { token_order := [], pair_order := [], weight := 0 }) :=
  ⟨(claim_C5_amended.1 [((2, 0), 7)] (2, 0) 5).1.mpr ⟨7, by decide, by decide⟩,
    claim_C5_amended.2 gRA 1 SEARCH_FUEL
      { token_order := [0], pair_order := [], weight := 5 } [((0, 0), 7)]
      { token_order := [], pair_order := [], weight := 0 } (by decide) (by decide)
      (by decide)⟩

/-- C7: the pending collection is keyed by protocol, not transaction hash:
merging two decoded swaps with distinct hashes but the same protocol leaves
only the later one — the claim (and the spec's stated intent,
`pending: map<tx_hash → PendingSwap>`) requires both to be present. -/
theorem claim_C7 :
    tradeA.tx_hash ≠ tradeB.tx_hash ∧ tradeA.protocol = tradeB.protocol ∧
    update_trades_merge [] [tradeA, tradeB] = [(7, tradeB)] ∧
    tradeA ∉ (update_trades_merge [] [tradeA, tradeB]).map Prod.snd := by decide

/-- C2 counterexample: on the fee-0 pool with reserves 1000/1000 (fee
`0 < 10000`, token 1 is `token0`), the input 1000000 quotes out 999, but
quoting the input back for 999 gives 999001, strictly less than the
original 1000000 — the round trip is not input-increasing for overshooting
inputs. -/
theorem claim_C2_counterexample :
    pFee0.fee < 10000 ∧ pFee0.get_amount_out 1 1000000 = .ok 999 ∧
    pFee0.get_amount_in 1 999 = .ok 999001 ∧ ¬(1000000 ≤ 999001) := by decide

/-- C2 amended: the round trip is output-safe rather than input-safe: if
`get_amount_out` quotes `y` for some input `x`, `get_amount_in` quotes `z`
for `y`, and `get_amount_out` succeeds on `z`, then the re-bought output is
at least `y` (the quoted input `z` suffices to buy `y`, though `z` may be
smaller than `x`). -/
theorem claim_C2_amended (p : Pair) (tok : Address) (x y z y2 : Nat)
    (h1 : p.get_amount_out tok x = .ok y)
    (h2 : p.get_amount_in tok y = .ok z)
    (h3 : p.get_amount_out tok z = .ok y2) : y ≤ y2 := by
  rcases Nat.eq_zero_or_pos y with rfl | hy
  · exact Nat.zero_le _
  obtain ⟨res, hres, hin, hout, hfee, hxb1, hxb2, hxb3, hxb4, hyeq⟩ :=
    get_amount_out_ok p tok x y h1
  obtain ⟨res2, hres2, hin2, hout2, hfee2, hib1, hib2, hib3, hzeq⟩ :=
    get_amount_in_ok p tok y z h2
  rw [hres] at hres2
  obtain rfl : res = res2 := (Except.ok.injEq _ _).mp hres2
  obtain ⟨res3, hres3, hin3, hout3, hfee3, hzb1, hzb2, hzb3, hzb4, hy2eq⟩ :=
    get_amount_out_ok p tok z y2 h3
  rw [hres] at hres3
  obtain rfl : res = res3 := (Except.ok.injEq _ _).mp hres3
  have hylt : y < res.output := amount_out_lt_output p tok x y res hres h1
  have hfpos : 0 < 10000 - p.fee := by
    by_contra hf0
    have hzero : 10000 - p.fee = 0 := by omega
    rw [hzero] at hyeq
    simp at hyeq
    omega
  have hD2pos : 0 < (res.output - y) * (10000 - p.fee) :=
    Nat.mul_pos (by omega) hfpos
  have hq : checkedDiv (res.input * y * 10000) ((res.output - y) * (10000 - p.fee)) =
      some (res.input * y * 10000 / ((res.output - y) * (10000 - p.fee))) := by
    unfold checkedDiv
    rw [if_neg (by omega)]
  by_cases hsat : res.input * y * 10000 / ((res.output - y) * (10000 - p.fee)) + 1 ≤
      U256_MAX
  · have hz2 : z = res.input * y * 10000 / ((res.output - y) * (10000 - p.fee)) + 1 := by
      rw [hzeq, hq]
      simp only [Option.getD_some]
      unfold saturatingAdd
      exact min_eq_left hsat
    have hdm := Nat.div_add_mod (res.input * y * 10000)
      ((res.output - y) * (10000 - p.fee))
    have hmod : res.input * y * 10000 % ((res.output - y) * (10000 - p.fee)) <
        (res.output - y) * (10000 - p.fee) := Nat.mod_lt _ hD2pos
    have hkey : res.input * y * 10000 < z * ((res.output - y) * (10000 - p.fee)) := by
      rw [hz2, Nat.add_mul, Nat.one_mul]
      have hcomm : res.input * y * 10000 / ((res.output - y) * (10000 - p.fee)) *
            ((res.output - y) * (10000 - p.fee)) =
          ((res.output - y) * (10000 - p.fee)) *
            (res.input * y * 10000 / ((res.output - y) * (10000 - p.fee))) :=
        Nat.mul_comm _ _
      omega
    rw [hy2eq]
    have hDz : 0 < z * (10000 - p.fee) + res.input * 10000 := by
      have : 0 < res.input * 10000 := Nat.mul_pos hin (by norm_num)
      omega
    rw [Nat.le_div_iff_mul_le hDz]
    have hsplit : z * (10000 - p.fee) * res.output =
        z * (10000 - p.fee) * y + z * ((res.output - y) * (10000 - p.fee)) := by
      have houtsum : res.output = y + (res.output - y) := by omega
      calc z * (10000 - p.fee) * res.output
          = z * (10000 - p.fee) * (y + (res.output - y)) := by rw [← houtsum]
        _ = z * (10000 - p.fee) * y + z * ((res.output - y) * (10000 - p.fee)) := by
            ring
    have hexp : y * (z * (10000 - p.fee) + res.input * 10000) =
        z * (10000 - p.fee) * y + res.input * y * 10000 := by ring
    rw [hexp, hsplit]
    omega
  · have hMOD : 0 < U256_MOD := by
      unfold U256_MOD
      positivity
    have hMX : U256_MAX + 1 = U256_MOD := by
      unfold U256_MAX
      omega
    have hqle : res.input * y * 10000 / ((res.output - y) * (10000 - p.fee)) ≤
        res.input * y * 10000 := Nat.div_le_self _ _
    have hqmax : res.input * y * 10000 / ((res.output - y) * (10000 - p.fee)) =
        U256_MAX := by omega
    have hzmax : z = U256_MAX := by
      rw [hzeq, hq, hqmax]
      simp only [Option.getD_some]
      unfold saturatingAdd
      exact min_eq_right (Nat.le_succ _)
    have hMAXpos : 1 ≤ U256_MAX := by
      unfold U256_MAX U256_MOD
      norm_num
    have hf1 : 10000 - p.fee = 1 := by
      by_contra hne
      have hf2 : 2 ≤ 10000 - p.fee := by omega
      have hmul : U256_MAX * 2 ≤ U256_MAX * (10000 - p.fee) :=
        Nat.mul_le_mul (le_refl _) hf2
      have hlt : U256_MAX * (10000 - p.fee) < U256_MOD := by
        rw [← hzmax]
        exact hzb1
      omega
    have hzf : z * (10000 - p.fee) = U256_MAX := by
      rw [hzmax, hf1, Nat.mul_one]
    have hout1 : res.output = 1 := by
      by_contra hne
      have hout2 : 2 ≤ res.output := by omega
      have hmul : U256_MAX * 2 ≤ U256_MAX * res.output :=
        Nat.mul_le_mul (le_refl _) hout2
      have hlt : U256_MAX * res.output < U256_MOD := by
        rw [← hzf]
        exact hzb2
      omega
    omega

/-- C2 witness: the fee-30 pool round-trips input 100 to quote 90, back to
input 100, which re-buys exactly 90. -/
theorem claim_C2_witness :
    pRA.get_amount_out 1 100 = .ok 90 ∧ pRA.get_amount_in 1 90 = .ok 100 ∧
    (90 : Nat) ≤ 90 :=
  ⟨by decide, by decide,
    claim_C2_amended pRA 1 100 90 100 90 (by decide) (by decide) (by decide)⟩

/-- C6 counterexample: `create_graph` on an empty pair list with traded
token 7 labels the start node with 7, not with the zero address. -/
theorem claim_C6_counterexample :
    createGraph [] [] 7 = .ok (⟨[7], []⟩, [(0, 0)]) ∧
    (⟨[7], []⟩ : Graph).nodeLabels.get? 0 ≠ some 0 := by decide

/-- C6 amended: for every pair list and reserve-token address, `create_graph`
(on the fresh node map its caller passes) first creates the sentinel start
node as node 0, labelled with the traded (reserve) token, and registers it
in the node map under the zero address. -/
theorem claim_C6_amended (allpairs : List Pair) (traded : Address) (g : Graph)
    (ns : NodeMap) (h : createGraph allpairs [] traded = .ok (g, ns)) :
    g.nodeLabels.get? 0 = some traded ∧ nmLookup ns 0 = some 0 := by
  have hinv := createGraph_inv h
  exact ⟨hinv.start_label, hinv.start_lookup⟩

/-- C6 witness: the amended theorem on the scenario graph. -/
theorem claim_C6_witness :
    gRA.nodeLabels.get? 0 = some 1 ∧ nmLookup nsRA 0 = some 0 :=
  claim_C6_amended [pRA] 1 gRA nsRA (by decide)

/-- C10 counterexample: a pair whose `token0` is the zero address collides
with the node map's sentinel key, so its edge leaves the start node (label
7, not in the pair) and `get_successors` panics with `TokenNotInPair`. -/
theorem claim_C10_counterexample :
    createGraph [pZeroTok] [] 7 = .ok (gZT, nsZT) ∧
    (0, 1, pZeroTok) ∈ gZT.edges ∧ gZT.nodeLabels.getD 0 0 = 7 ∧
    pZeroTok.token0 ≠ 7 ∧ pZeroTok.token1 ≠ 7 ∧
    getSuccessors gZT 0 1 = .error .TokenNotInPair := by decide

/-- C10 amended: for every graph `create_graph` builds from pairs none of
whose tokens is the zero address, every edge leaves a node labelled with
one of its pair's tokens, so neither `get_successors` nor `search_visit`
ever produces the `TokenNotInPair` panic. -/
theorem claim_C10_amended (allpairs : List Pair) (traded : Address) (g : Graph)
    (ns : NodeMap) (hcg : createGraph allpairs [] traded = .ok (g, ns))
    (hz : ∀ p ∈ allpairs, p.token0 ≠ 0 ∧ p.token1 ≠ 0) :
    (∀ e ∈ g.edges, g.nodeLabels.getD e.1 0 = e.2.2.token0 ∨
      g.nodeLabels.getD e.1 0 = e.2.2.token1) ∧
    (∀ node w, getSuccessors g node w ≠ .error .TokenNotInPair) ∧
    (∀ goal fuel cur seen best,
      searchVisit g goal fuel cur seen best ≠ .error .TokenNotInPair) := by
  have hinv := createGraph_inv hcg
  refine ⟨?_, ?_, ?_⟩
  · intro e he
    exact hinv.edge_label e he (hz e.2.2 (hinv.edge_ok e he).2.2).1
      (hz e.2.2 (hinv.edge_ok e he).2.2).2
  · intro node w
    exact getSuccessors_no_tnip hinv hz node w
  · intro goal fuel cur seen best
    exact searchVisit_no_tnip hinv hz fuel cur seen best

/-- C10 witness: the amended theorem on the scenario graph, at the start
node and for the scenario search call. -/
theorem claim_C10_witness :
    getSuccessors gRA 0 100 ≠ .error .TokenNotInPair ∧
    searchVisit gRA 1 SEARCH_FUEL
      { token_order := [0], pair_order := [], weight := 100 } []
      { token_order := [], pair_order := [], weight := 0 } ≠
      .error .TokenNotInPair :=
  ⟨(claim_C10_amended [pRA] 1 gRA nsRA (by decide) (by decide)).2.1 0 100,
    (claim_C10_amended [pRA] 1 gRA nsRA (by decide) (by decide)).2.2 1 SEARCH_FUEL
      { token_order := [0], pair_order := [], weight := 100 } []
      { token_order := [], pair_order := [], weight := 0 }⟩

/-- C8 counterexample: on the single-pool scenario (`R/A`, reserves
1000/1000, fee 30, input 100), the search does not return a length-0 path
of weight 100: it returns the two-swap cycle `R → A → R` with weight 82. -/
theorem claim_C8_counterexample :
    createGraph [pRA] [] 1 = .ok (gRA, nsRA) ∧
    findBestSearchPath gRA nsRA 1 100 = .ok bestRA ∧
    find_shortest_path gRA nsRA 1 100 = .ok pathRA ∧
    pathRA.token_order.length ≠ 0 ∧ bestRA.weight ≠ 100 := by decide

/-- C8 amended: on the single-pool scenario the search returns the
losing two-swap cycle `R → A → R` (tokens `[1, 2, 1]`, both legs through
the one pool) with best weight 82; replaying it gives amounts
`[100, 90, 82]`; and since `profit = saturating_sub(82, 100) = 0`, the
engine emits nothing for this candidate whatever the gas profile and retry
count. -/
theorem claim_C8_amended :
    createGraph [pRA] [] 1 = .ok (gRA, nsRA) ∧
    findBestSearchPath gRA nsRA 1 100 = .ok bestRA ∧
    find_shortest_path gRA nsRA 1 100 = .ok pathRA ∧
    pathRA = ⟨[1, 2, 1], [⟨9, (1, 2)⟩, ⟨9, (1, 2)⟩]⟩ ∧ bestRA.weight = 82 ∧
    pathRA.get_amounts_out 100 protocolsRA = .ok [100, 90, 82] ∧
    (∀ (gas : Gas) (attempts : Nat),
      get_profitable_arbitrage [PossibleArbitrage.new pathRA gas 82 100 attempts] =
        none) := by
  refine ⟨by decide, by decide, by decide, by decide, by decide, by decide, ?_⟩
  intro gas attempts
  have hsub : saturatingSub (PossibleArbitrage.new pathRA gas 82 100 attempts).profit
      (PossibleArbitrage.new pathRA gas 82 100 attempts).gas_in_eth = 0 := by
    simp [PossibleArbitrage.new, saturatingSub]
  show (if saturatingSub (PossibleArbitrage.new pathRA gas 82 100 attempts).profit
      (PossibleArbitrage.new pathRA gas 82 100 attempts).gas_in_eth > 0 then
      some (PossibleArbitrage.new pathRA gas 82 100 attempts) else none) = none
  rw [hsub]
  simp

/-- C4 counterexample: on a zero-reserve pool every weight is 0, the search
finds nothing, and `find_shortest_path` returns the empty sentinel path: it
does not start at the reserve token, and `get_amounts_out` ends with the
input 1, not the best weight 0. -/
theorem claim_C4_counterexample :
    createGraph [pDry] [] 1 = .ok (gDry, nsDry) ∧
    findBestSearchPath gDry nsDry 1 1 = .ok ⟨[], [], 0⟩ ∧
    find_shortest_path gDry nsDry 1 1 = .ok ⟨[], []⟩ ∧
    (⟨[], []⟩ : Path).token_order.head? ≠ some 1 ∧
    Path.get_amounts_out ⟨[], []⟩ 1 protocolsDry = .ok [1] ∧
    ([1] : List Nat).getLast? ≠ some 0 := by decide

/-- C4 amended: on every graph `create_graph` builds, with a registry that
resolves each pair's lookup key back to that pair, the best search path has
pairwise-distinct edge indices and the returned `Path` has at most
`MAX_NUM_SWAPS` legs; whenever the returned path is nonempty (the search
found a positive-weight cycle), its token sequence starts and ends at the
reserve token and `get_amounts_out` on the search's input ends exactly at
the best weight the search found.  (The empty path returned when no cycle
is found — see the counterexample — satisfies neither of the latter.) -/
theorem claim_C4_amended (allpairs : List Pair) (protocols : Protocols)
    (traded : Address) (amount : Nat) (g : Graph) (ns : NodeMap)
    (best : SearchPath) (path : Path)
    (hcg : createGraph allpairs [] traded = .ok (g, ns))
    (hres : Resolves protocols allpairs)
    (hbest : findBestSearchPath g ns traded amount = .ok best)
    (hfind : find_shortest_path g ns traded amount = .ok path) :
    best.pair_order.Nodup ∧ path.pair_order.length ≤ MAX_NUM_SWAPS ∧
    (path.token_order ≠ [] →
      path.token_order.head? = some traded ∧
      path.token_order.getLast? = some traded ∧
      ∃ amounts, path.get_amounts_out amount protocols = .ok amounts ∧
        amounts.getLast? = some best.weight) := by
  have hinv := createGraph_inv hcg
  cases hg : nmLookup ns traded with
  | none =>
    exfalso
    unfold findBestSearchPath at hbest
    rw [hg] at hbest
    cases hbest
  | some goal =>
  have hgb := findBest_good hg hinv.start_lookup hbest
  unfold find_shortest_path at hfind
  rw [hbest] at hfind
  have hfind2 : (match Path.from_search_path g best with
      | Except.error e => Except.error (SearchAbort.failure e)
      | Except.ok p => Except.ok p) = Except.ok path := hfind
  clear hfind
  split at hfind2
  · cases hfind2
  · rename_i p' hfsp'
    obtain rfl : path = p' := ((Except.ok.injEq _ _).mp hfind2).symm
    have hfsp : Path.from_search_path g best = .ok path := hfsp'
    unfold Path.from_search_path at hfsp
    split at hfsp
    · cases hfsp
    · rename_i tokens hmn
      split at hfsp
      · cases hfsp
      · rename_i lookups hme
        obtain hpath : ({ token_order := tokens, pair_order := lookups } : Path) =
            path := (Except.ok.injEq _ _).mp hfsp
        subst hpath
        have htokf := mapNodes_ok_forall hmn
        have hlkf := mapEdges_ok_forall hme
        rcases hgb with hempty | ⟨rest0, htok, hchain, hnodup, hlenb, hpos⟩
        · subst hempty
          have htokf' : List.Forall₂
              (fun i a => g.nodeLabels.get? i = some a) [] tokens := htokf
          have hlkf' : List.Forall₂ (fun e pl => ∃ t, g.edges.get? e = some t ∧
              pl = ⟨t.2.2.factory_address, t.2.2.get_tokens⟩) [] lookups := hlkf
          cases htokf'
          cases hlkf'
          refine ⟨List.nodup_nil, by decide, ?_⟩
          intro hne
          exact absurd rfl hne
        · refine ⟨hnodup, ?_, ?_⟩
          · have hlen2 := hlkf.length_eq
            show lookups.length ≤ MAX_NUM_SWAPS
            omega
          · intro hne
            rw [htok] at htokf
            obtain ⟨a, hha, hlaba⟩ := forall2_head? htokf (x := 0) rfl
            have ha : a = traded := by
              have hsl := hinv.start_label
              rw [hlaba] at hsl
              exact (Option.some.injEq _ _).mp hsl
            have hlast1 : (0 :: rest0).getLast? = some goal := by
              rw [getLast?_cons_eq_getLastD 0 rest0 0, walkChain_lastD hchain 0]
            obtain ⟨b, hlb, hlabb⟩ := forall2_getLast? htokf hlast1
            have hb : b = traded := by
              by_cases h0 : traded = 0
              · subst h0
                rw [hinv.start_lookup] at hg
                obtain rfl : (0 : Nat) = goal := (Option.some.injEq _ _).mp hg
                have hsl := hinv.start_label
                rw [hlabb] at hsl
                exact (Option.some.injEq _ _).mp hsl
              · have hll := hinv.lookup_label traded goal h0 hg
                rw [hlabb] at hll
                exact (Option.some.injEq _ _).mp hll
            have hedges : ∀ e ∈ g.edges, e.2.2 ∈ allpairs :=
              fun e he => (hinv.edge_ok e he).2.2
            obtain ⟨amounts, hgo, hnea, hlastD⟩ :=
              walkChain_amounts hres hedges hchain hpos htokf hlkf
            refine ⟨?_, ?_, amounts, ?_, ?_⟩
            · show tokens.head? = some traded
              rw [hha, ha]
            · show tokens.getLast? = some traded
              rw [hlb, hb]
            · show amountsOutGo protocols tokens lookups amount = .ok amounts
              exact hgo
            · cases amounts with
              | nil => exact absurd rfl hnea
              | cons c cs =>
                rw [getLast?_cons_eq_getLastD c cs 0, hlastD]

/-- C4 witness: the amended theorem on the single-pool scenario, whose
returned path `R → A → R` is nonempty with best weight 82. -/
theorem claim_C4_witness :
    bestRA.pair_order.Nodup ∧ pathRA.pair_order.length ≤ MAX_NUM_SWAPS ∧
    (pathRA.token_order ≠ [] →
      pathRA.token_order.head? = some 1 ∧
      pathRA.token_order.getLast? = some 1 ∧
      ∃ amounts, pathRA.get_amounts_out 100 protocolsRA = .ok amounts ∧
        amounts.getLast? = some bestRA.weight) :=
  claim_C4_amended [pRA] protocolsRA 1 100 gRA nsRA bestRA pathRA (by decide)
    (by unfold Resolves; decide) (by decide) (by decide)

end RustArb